import Mathlib

/-!
# HelpMate-Backend: verification of the report-analysis pipeline

A shallow embedding of the core of the HelpMate backend:

* `parseGeminiResponse` and `analyzeMedicalReport` (`src/config/cloudinary.js`,
  gemini module): response normalisation with degraded/fallback records;
* `processAIInsight` (background pipeline) and the manual
  `POST /api/ai/analyze-file/:fileId` route (`src/routes/vitals.js`):
  the File/AiInsight two-entity status machine;
* the `AiInsight` mongoose schema validation relevant to persistence;
* `checkNormalRanges` (`src/models/Vitals.js`).

JavaScript JSON values are embedded as the inductive `Json`.  The model of
`JSON.parse` / `JSON.stringify` restricts numbers to integers (every number
appearing in this repository's payloads is an integer); strings cover the
full escape grammar.  Braces in embedded string literals are written with
`\x7b` / `\x7d` escapes.
-/

namespace HelpMate

/-- A JavaScript JSON value.  Numbers are modelled as integers: every numeric
field of this repository's payloads (`confidence`, counts, …) is integral. -/
inductive Json where
  | null
  | bool (b : Bool)
  | num (n : Int)
  | str (s : String)
  | arr (elems : List Json)
  | obj (fields : List (String × Json))
deriving Repr

mutual

/-- Decidable equality on `Json` (the nested inductive defeats `deriving`). -/
def Json.decEq : (a b : Json) → Decidable (a = b)
  | .null, .null => .isTrue rfl
  | .bool x, .bool y =>
    if h : x = y then .isTrue (h ▸ rfl)
    else .isFalse fun e => h (Json.bool.inj e)
  | .num x, .num y =>
    if h : x = y then .isTrue (h ▸ rfl)
    else .isFalse fun e => h (Json.num.inj e)
  | .str x, .str y =>
    if h : x = y then .isTrue (h ▸ rfl)
    else .isFalse fun e => h (Json.str.inj e)
  | .arr xs, .arr ys =>
    match Json.decEqList xs ys with
    | .isTrue h => .isTrue (h ▸ rfl)
    | .isFalse h => .isFalse fun e => h (Json.arr.inj e)
  | .obj xs, .obj ys =>
    match Json.decEqFields xs ys with
    | .isTrue h => .isTrue (h ▸ rfl)
    | .isFalse h => .isFalse fun e => h (Json.obj.inj e)
  | .null, .bool _ => .isFalse fun h => nomatch h
  | .null, .num _ => .isFalse fun h => nomatch h
  | .null, .str _ => .isFalse fun h => nomatch h
  | .null, .arr _ => .isFalse fun h => nomatch h
  | .null, .obj _ => .isFalse fun h => nomatch h
  | .bool _, .null => .isFalse fun h => nomatch h
  | .bool _, .num _ => .isFalse fun h => nomatch h
  | .bool _, .str _ => .isFalse fun h => nomatch h
  | .bool _, .arr _ => .isFalse fun h => nomatch h
  | .bool _, .obj _ => .isFalse fun h => nomatch h
  | .num _, .null => .isFalse fun h => nomatch h
  | .num _, .bool _ => .isFalse fun h => nomatch h
  | .num _, .str _ => .isFalse fun h => nomatch h
  | .num _, .arr _ => .isFalse fun h => nomatch h
  | .num _, .obj _ => .isFalse fun h => nomatch h
  | .str _, .null => .isFalse fun h => nomatch h
  | .str _, .bool _ => .isFalse fun h => nomatch h
  | .str _, .num _ => .isFalse fun h => nomatch h
  | .str _, .arr _ => .isFalse fun h => nomatch h
  | .str _, .obj _ => .isFalse fun h => nomatch h
  | .arr _, .null => .isFalse fun h => nomatch h
  | .arr _, .bool _ => .isFalse fun h => nomatch h
  | .arr _, .num _ => .isFalse fun h => nomatch h
  | .arr _, .str _ => .isFalse fun h => nomatch h
  | .arr _, .obj _ => .isFalse fun h => nomatch h
  | .obj _, .null => .isFalse fun h => nomatch h
  | .obj _, .bool _ => .isFalse fun h => nomatch h
  | .obj _, .num _ => .isFalse fun h => nomatch h
  | .obj _, .str _ => .isFalse fun h => nomatch h
  | .obj _, .arr _ => .isFalse fun h => nomatch h

def Json.decEqList : (xs ys : List Json) → Decidable (xs = ys)
  | [], [] => .isTrue rfl
  | [], _ :: _ => .isFalse fun h => nomatch h
  | _ :: _, [] => .isFalse fun h => nomatch h
  | x :: xs, y :: ys =>
    match Json.decEq x y with
    | .isFalse h => .isFalse fun e => h (List.cons.inj e).1
    | .isTrue h1 =>
      match Json.decEqList xs ys with
      | .isTrue h2 => .isTrue (h1 ▸ h2 ▸ rfl)
      | .isFalse h => .isFalse fun e => h (List.cons.inj e).2

def Json.decEqFields : (xs ys : List (String × Json)) → Decidable (xs = ys)
  | [], [] => .isTrue rfl
  | [], _ :: _ => .isFalse fun h => nomatch h
  | _ :: _, [] => .isFalse fun h => nomatch h
  | (k, v) :: xs, (k', v') :: ys =>
    if hk : k = k' then
      match Json.decEq v v' with
      | .isFalse h => .isFalse fun e => h (Prod.mk.inj (List.cons.inj e).1).2
      | .isTrue hv =>
        match Json.decEqFields xs ys with
        | .isTrue h2 => .isTrue (hk ▸ hv ▸ h2 ▸ rfl)
        | .isFalse h => .isFalse fun e => h (List.cons.inj e).2
    else .isFalse fun e => hk (Prod.mk.inj (List.cons.inj e).1).1

end

instance : DecidableEq Json := Json.decEq

namespace Json

/-- Property lookup on an object (`undefined` is `none`).  JS property access
on our payload objects; the payloads built in this repository have no
duplicate keys, so first-match lookup agrees with JS. -/
def getF : Json → String → Option Json
  | .obj fs, k => fs.lookup k
  | _, _ => none

/-- JS truthiness of a value. -/
def truthy : Json → Bool
  | .null => false
  | .bool b => b
  | .num n => n != 0
  | .str s => s != ""
  | .arr _ => true
  | .obj _ => true

/-- JS truthiness of a possibly-`undefined` value. -/
def truthyO : Option Json → Bool
  | none => false
  | some v => truthy v

/-- `a || b` on a possibly-`undefined` left operand, with a defined default. -/
def orElse (a : Option Json) (b : Json) : Json :=
  match a with
  | some v => if truthy v then v else b
  | none => b

end Json

/-! ## `JSON.stringify`

Rendering goes to `List Char` (`Json.renderL`); `Json.render` wraps the result
as a `String`.  Escaping follows `JSON.stringify`: `\"`, `\\`, the short forms
`\b \t \n \f \r`, and `\u00xx` for the remaining control characters. -/

/-- The decimal digit character for `d < 10`. -/
def digitCh (d : Nat) : Char := Char.ofNat (48 + d)

/-- Lowercase hex digit character for `d < 16`. -/
def hexCh (d : Nat) : Char :=
  if d < 10 then Char.ofNat (48 + d) else Char.ofNat (87 + d)

/-- One character of a JSON string, escaped as `JSON.stringify` escapes it. -/
def escChar (c : Char) : List Char :=
  if c = '"' then ['\\', '"']
  else if c = '\\' then ['\\', '\\']
  else if c = '\x08' then ['\\', 'b']
  else if c = '\x09' then ['\\', 't']
  else if c = '\x0a' then ['\\', 'n']
  else if c = '\x0c' then ['\\', 'f']
  else if c = '\x0d' then ['\\', 'r']
  else if c.toNat < 32 then ['\\', 'u', '0', '0', hexCh (c.toNat / 16), hexCh (c.toNat % 16)]
  else [c]

/-- A whole string body, escaped character by character. -/
def escBody : List Char → List Char
  | [] => []
  | c :: cs => escChar c ++ escBody cs

/-- Decimal digits of a natural number, most significant first. -/
def natChars (n : Nat) : List Char :=
  if n < 10 then [digitCh n] else natChars (n / 10) ++ [digitCh (n % 10)]
termination_by n
decreasing_by exact Nat.div_lt_self (by omega) (by omega)

/-- Decimal rendering of an integer (sign, then digits). -/
def intChars (i : Int) : List Char :=
  if i < 0 then '-' :: natChars i.natAbs else natChars i.natAbs

mutual

/-- `JSON.stringify`, to a character list.  No whitespace is emitted. -/
def Json.renderL : Json → List Char
  | .null => 'n' :: 'u' :: ['l', 'l']
  | .bool true => 't' :: 'r' :: ['u', 'e']
  | .bool false => 'f' :: 'a' :: 'l' :: ['s', 'e']
  | .num n => intChars n
  | .str s => '"' :: (escBody s.data ++ ['"'])
  | .arr xs => '[' :: (Json.itemsL xs ++ [']'])
  | .obj fs => '\x7b' :: (Json.fieldsL fs ++ ['\x7d'])

/-- Array items, comma separated. -/
def Json.itemsL : List Json → List Char
  | [] => []
  | [x] => Json.renderL x
  | x :: y :: xs => Json.renderL x ++ ',' :: Json.itemsL (y :: xs)

/-- Object members, comma separated, each `"key":value`. -/
def Json.fieldsL : List (String × Json) → List Char
  | [] => []
  | [(k, v)] => '"' :: (escBody k.data ++ '"' :: ':' :: Json.renderL v)
  | (k, v) :: f :: fs =>
    '"' :: (escBody k.data ++ '"' :: ':' :: (Json.renderL v ++ ',' :: Json.fieldsL (f :: fs)))

end

/-- What follows a rendered array item: nothing, or a comma and the rest. -/
def itemsSep (ys : List Json) : List Char :=
  match ys with
  | [] => []
  | _ :: _ => ',' :: Json.itemsL ys

/-- What follows a rendered object member: nothing, or a comma and the rest. -/
def fieldsSep (fs : List (String × Json)) : List Char :=
  match fs with
  | [] => []
  | _ :: _ => ',' :: Json.fieldsL fs

/-- `JSON.stringify` as a `String`-valued function. -/
def Json.render (v : Json) : String := String.mk v.renderL

/-! ## `JSON.parse`

A recursive-descent parser on `List Char`, total by a fuel argument (the fuel
is spent one unit per nested parse; `cs.length + 1` always suffices for inputs
the grammar accepts).  It implements RFC-8259 JSON restricted to integer
numbers: a fractional part or exponent makes the parse fail (and so, below,
makes `parseGeminiResponse` take its degraded branch) rather than silently
misreading the number. -/

/-- JSON insignificant whitespace. -/
def wsCh (c : Char) : Bool := c == ' ' || (c == '\t' || (c == '\n' || c == '\r'))

/-- Drop leading JSON whitespace. -/
def chomp : List Char → List Char
  | [] => []
  | c :: cs => if wsCh c then chomp cs else c :: cs

/-- Is `c` a decimal digit? -/
def isDig (c : Char) : Bool := 48 ≤ c.toNat && c.toNat ≤ 57

/-- Numeric value of a hex digit character, if it is one. -/
def hexv (c : Char) : Option Nat :=
  if 48 ≤ c.toNat ∧ c.toNat ≤ 57 then some (c.toNat - 48)
  else if 97 ≤ c.toNat ∧ c.toNat ≤ 102 then some (c.toNat - 87)
  else if 65 ≤ c.toNat ∧ c.toNat ≤ 70 then some (c.toNat - 55)
  else none

/-- Unescape a single-character escape (`\"`, `\\`, `\/`, `\b`, `\f`, `\n`,
`\r`, `\t`). -/
def unesc : Char → Option Char
  | '"' => some '"'
  | '\\' => some '\\'
  | '/' => some '/'
  | 'b' => some '\x08'
  | 'f' => some '\x0c'
  | 'n' => some '\x0a'
  | 'r' => some '\x0d'
  | 't' => some '\x09'
  | _ => none

/-- Parse a JSON string body after the opening quote: the decoded characters
and the remainder past the closing quote.  Raw control characters are
rejected, as in RFC 8259. -/
def strBody : List Char → Option (List Char × List Char)
  | [] => none
  | c :: r =>
    if c = '"' then some ([], r)
    else if c = '\\' then
      match r with
      | [] => none
      | e :: r1 =>
        if e = 'u' then
          match r1 with
          | a :: b :: c2 :: d :: r2 => do
            let va ← hexv a
            let vb ← hexv b
            let vc ← hexv c2
            let vd ← hexv d
            let (cs, r') ← strBody r2
            some (Char.ofNat (((va * 16 + vb) * 16 + vc) * 16 + vd) :: cs, r')
          | _ => none
        else do
          let ch ← unesc e
          let (cs, r') ← strBody r1
          some (ch :: cs, r')
    else if c.toNat < 32 then none
    else do
      let (cs, r') ← strBody r
      some (c :: cs, r')

/-- Maximal digit prefix of the input, with the remainder. -/
def digSpan : List Char → List Char × List Char
  | [] => ([], [])
  | c :: cs =>
    if isDig c then
      let (ds, r) := digSpan cs
      (c :: ds, r)
    else ([], c :: cs)

/-- Value of a digit string. -/
def digVal (ds : List Char) : Nat := ds.foldl (fun a c => a * 10 + (c.toNat - 48)) 0

/-- Would the remainder extend a just-parsed integer into a fraction or an
exponent?  (`JSON.parse` would accept those; this model makes them fail.) -/
def extStop (r : List Char) : Bool :=
  match r with
  | [] => false
  | c :: _ => c = '.' || c = 'e' || c = 'E'

/-- Parse a JSON integer: optional minus, digits, no redundant leading zero,
and no fractional part or exponent following (those make the parse fail, see
the module comment). -/
def intSpan (cs : List Char) : Option (Int × List Char) :=
  let p : Bool × List Char :=
    match cs with
    | [] => (false, [])
    | c :: r => if c = '-' then (true, r) else (false, c :: r)
  match digSpan p.2 with
  | ([], _) => none
  | (d :: ds, r) =>
    if d = '0' ∧ ds ≠ [] then none
    else if extStop r then none
    else
      let m : Int := (digVal (d :: ds) : Int)
      some (if p.1 then -m else m, r)

mutual

/-- Parse one JSON value (fuel-recursive).  The head character selects the
grammar production, as in any JSON parser. -/
def jVal : Nat → List Char → Option (Json × List Char)
  | 0, _ => none
  | fuel + 1, cs =>
    match chomp cs with
    | [] => none
    | c :: r =>
      if c = 'n' then
        match r with
        | 'u' :: 'l' :: 'l' :: r' => some (.null, r')
        | _ => none
      else if c = 't' then
        match r with
        | 'r' :: 'u' :: 'e' :: r' => some (.bool true, r')
        | _ => none
      else if c = 'f' then
        match r with
        | 'a' :: 'l' :: 's' :: 'e' :: r' => some (.bool false, r')
        | _ => none
      else if c = '"' then (strBody r).map fun p => (.str (String.mk p.1), p.2)
      else if c = '[' then
        match chomp r with
        | [] => none
        | c' :: r' =>
          if c' = ']' then some (.arr [], r')
          else (jItems fuel (c' :: r')).map fun p => (.arr p.1, p.2)
      else if c = '\x7b' then
        match chomp r with
        | [] => none
        | c' :: r' =>
          if c' = '\x7d' then some (.obj [], r')
          else (jFields fuel (c' :: r')).map fun p => (.obj p.1, p.2)
      else if c = '-' ∨ isDig c then (intSpan (c :: r)).map fun p => (.num p.1, p.2)
      else none

/-- Parse one-or-more comma-separated array items up to the closing `]`. -/
def jItems : Nat → List Char → Option (List Json × List Char)
  | 0, _ => none
  | fuel + 1, cs => do
    let (v, r) ← jVal fuel cs
    match chomp r with
    | ',' :: r' => (jItems fuel (chomp r')).map fun p => (v :: p.1, p.2)
    | ']' :: r' => some ([v], r')
    | _ => none

/-- Parse one-or-more comma-separated object members up to the closing brace. -/
def jFields : Nat → List Char → Option (List (String × Json) × List Char)
  | 0, _ => none
  | fuel + 1, cs =>
    match chomp cs with
    | '"' :: r =>
      match strBody r with
      | none => none
      | some (k, r1) =>
        match chomp r1 with
        | ':' :: r2 => do
          let (v, r3) ← jVal fuel (chomp r2)
          match chomp r3 with
          | ',' :: r4 => (jFields fuel (chomp r4)).map fun p => ((String.mk k, v) :: p.1, p.2)
          | '\x7d' :: r4 => some ([(String.mk k, v)], r4)
          | _ => none
        | _ => none
    | _ => none

end

/-- `JSON.parse` on a character list: one value, then only whitespace. -/
def jsonParseL (cs : List Char) : Option Json :=
  match jVal (cs.length + 1) cs with
  | some (v, r) => if chomp r = [] then some v else none
  | none => none

/-- `JSON.parse`. -/
def jsonParse (s : String) : Option Json := jsonParseL s.data

/-! ## The Response Normalizer (`parseGeminiResponse`)

`src/config/cloudinary.js` lines 310–360: extract `text.match(/\{[\s\S]*\}/)`
— the greedy regex takes the first `{` through the *last* `}` — and
`JSON.parse` it; if no block is found return the fixed confidence-60 record
built from a truncation of the raw text; if the parse throws return the fixed
confidence-30 record. -/

/-- The greedy match of `/\{[\s\S]*\}/`: the slice from the first `{` through
the last `}`, when the latter comes after the former. -/
def braceSlice (cs : List Char) : Option (List Char) :=
  let suff := cs.dropWhile (fun c => c != '\x7b')
  let body := (suff.reverse.dropWhile (fun c => c != '\x7d')).reverse
  if body.isEmpty then none else some body

/-- `text.match(/\{[\s\S]*\}/)`, as the matched substring. -/
def braceMatch (s : String) : Option String := (braceSlice s.data).map String.mk

/-- `text.substring(0, n)`.  JS counts UTF-16 units where Lean counts scalar
values; on this repository's ASCII templates the two agree. -/
def jsSubstr (s : String) (n : Nat) : String := String.mk (s.data.take n)

/-- The degraded record `parseGeminiResponse` builds when the text contains no
`{...}` block (confidence 60), verbatim from the source. -/
def noJsonRecord (text : String) : Json :=
  .obj [
    ("summary", .obj [
      ("english", .str (jsSubstr text 500 ++ "...")),
      ("urdu", .str "Report ka summary Roman Urdu mein translate karna hai")]),
    ("keyFindings", .arr []),
    ("recommendations", .obj [
      ("english", .arr [.str "Consult with your doctor for detailed analysis"]),
      ("urdu", .arr [.str "Apne doctor se detailed analysis ke liye consult karein"])]),
    ("doctorQuestions", .obj [
      ("english", .arr [.str "What do these results mean for my health?"]),
      ("urdu", .arr [.str "Ye results mere health ke liye kya matlab hai?"])]),
    ("riskFactors", .arr []),
    ("followUpRequired", .bool true),
    ("followUpTimeframe", .str "1-month"),
    ("confidence", .num 60)]

/-- The degraded record built in the `catch` when a located block fails to
parse (confidence 30), verbatim from the source. -/
def unparseableRecord : Json :=
  .obj [
    ("summary", .obj [
      ("english", .str "Unable to parse report. Please consult your doctor."),
      ("urdu", .str "Report parse nahi kar sakte. Doctor se consult karein.")]),
    ("keyFindings", .arr []),
    ("recommendations", .obj [
      ("english", .arr [.str "Consult with your doctor"]),
      ("urdu", .arr [.str "Doctor se consult karein"])]),
    ("doctorQuestions", .obj [
      ("english", .arr [.str "Please explain these results"]),
      ("urdu", .arr [.str "In results ki explanation dijiye"])]),
    ("riskFactors", .arr []),
    ("followUpRequired", .bool true),
    ("followUpTimeframe", .str "1-month"),
    ("confidence", .num 30)]

/-- `parseGeminiResponse` (`src/config/cloudinary.js` 310–360). -/
def parseGeminiResponse (text : String) : Json :=
  match braceMatch text with
  | some block =>
    match jsonParse block with
    | some v => v
    | none => unparseableRecord
  | none => noJsonRecord text

/-! ## The Model Invoker (`analyzeMedicalReport`)

`src/config/cloudinary.js` 151–307 (gemini module).  The external model call
is an oracle parameter: `some text` is a reply, `none` is a thrown error.
Timing (`Date.now()` differences) is a parameter.  The MIME sniffing of the
image branch only affects the prompt sent to the model, not the returned
record, so it is not modelled. -/

/-- The first argument of `analyzeMedicalReport`: a binary Buffer or a string. -/
inductive FileData where
  | buffer (bytes : List Nat)
  | text (s : String)
deriving DecidableEq, Repr

/-- The record `analyzeMedicalReport` resolves with.  A missing `fallback` key
(`undefined`, falsy) is modelled as `false`. -/
structure AnalyzeResult where
  success : Bool
  data : Json
  processingTime : Nat
  fallback : Bool
deriving DecidableEq, Repr

/-- The hard-coded fallback payload of `analyzeMedicalReport`'s `catch`. -/
def fallbackResponse : Json :=
  .obj [
    ("summary", .obj [
      ("english", .str "AI analysis temporarily unavailable. Please consult your healthcare provider for detailed analysis."),
      ("urdu", .str "AI analysis abhi available nahi hai. Detailed analysis ke liye apne doctor se consult karein.")]),
    ("keyFindings", .arr []),
    ("recommendations", .obj [
      ("english", .arr [.str "Consult with your healthcare provider for detailed analysis"]),
      ("urdu", .arr [.str "Detailed analysis ke liye apne doctor se consult karein"])]),
    ("doctorQuestions", .obj [
      ("english", .arr [.str "What do these results mean?", .str "Do I need any follow-up tests?"]),
      ("urdu", .arr [.str "Ye results ka matlab kya hai?", .str "Kya mujhe koi follow-up tests chahiye?"])]),
    ("riskFactors", .arr []),
    ("followUpRequired", .bool true),
    ("followUpTimeframe", .str "1-month"),
    ("confidence", .num 30)]

/-- The result returned from `analyzeMedicalReport`'s `catch` block. -/
def fallbackResult (elapsed : Nat) : AnalyzeResult :=
  { success := true, data := fallbackResponse, processingTime := elapsed, fallback := true }

/-- `analyzeMedicalReport` (`src/config/cloudinary.js` 151–307).  `modelReply`
is the external model call's outcome (`none` = it threw); a non-Buffer image
payload throws internally and lands in the same `catch`. -/
def analyzeMedicalReport (fileData : FileData) (fileType reportType : String)
    (modelReply : Option String) (elapsed : Nat) : AnalyzeResult :=
  if fileType = "image" then
    match fileData with
    | .text _ => fallbackResult elapsed
    | .buffer _ =>
      match modelReply with
      | some t =>
        { success := true, data := parseGeminiResponse t, processingTime := elapsed,
          fallback := false }
      | none => fallbackResult elapsed
  else
    match modelReply with
    | some t =>
      { success := true, data := parseGeminiResponse t, processingTime := elapsed,
        fallback := false }
    | none => fallbackResult elapsed

/-! ## The Vitals Range Evaluator (`checkNormalRanges`)

`src/models/Vitals.js` 189–228.  Every reading is optional, as in the mongoose
schema; a JS comparison against `undefined` is `false`, which `oGt`/`oLt`
reproduce via `Option`. -/

/-- A blood-pressure reading; either component may be absent. -/
structure BPReading where
  systolic : Option ℚ
  diastolic : Option ℚ
deriving DecidableEq

/-- A blood-sugar reading. -/
structure SugarReading where
  fasting : Option ℚ
  postPrandial : Option ℚ
deriving DecidableEq

/-- A single-valued reading (`{ value, unit }`); the unit plays no role. -/
structure ValueReading where
  value : Option ℚ
deriving DecidableEq

/-- The fields of a vitals document that `checkNormalRanges` reads. -/
structure VitalsSnap where
  bloodPressure : Option BPReading := none
  bloodSugar : Option SugarReading := none
  heartRate : Option ValueReading := none
  temperature : Option ValueReading := none
  oxygenSaturation : Option ValueReading := none
deriving DecidableEq

/-- `x > b` under JS semantics: comparing `undefined` yields `false`. -/
def oGt (a : Option ℚ) (b : ℚ) : Bool :=
  match a with
  | some x => x > b
  | none => false

/-- `x < b` under JS semantics: comparing `undefined` yields `false`. -/
def oLt (a : Option ℚ) (b : ℚ) : Bool :=
  match a with
  | some x => x < b
  | none => false

/-- The blood-pressure block of `checkNormalRanges`. -/
def bpAlerts (bp? : Option BPReading) : List String :=
  match bp? with
  | some bp =>
    (if oGt bp.systolic 140 || oGt bp.diastolic 90
     then ["High blood pressure detected"] else [])
    ++ (if oLt bp.systolic 90 || oLt bp.diastolic 60
        then ["Low blood pressure detected"] else [])
  | none => []

/-- The blood-sugar block of `checkNormalRanges`. -/
def sugarAlerts (bs? : Option SugarReading) : List String :=
  match bs? with
  | some bs =>
    (if oGt bs.fasting 126 then ["High fasting blood sugar"] else [])
    ++ (if oGt bs.postPrandial 200 then ["High post-meal blood sugar"] else [])
  | none => []

/-- The heart-rate block of `checkNormalRanges`. -/
def hrAlerts (hr? : Option ValueReading) : List String :=
  match hr? with
  | some hr => if oGt hr.value 100 || oLt hr.value 60 then ["Abnormal heart rate"] else []
  | none => []

/-- The temperature block of `checkNormalRanges`. -/
def tempAlerts (t? : Option ValueReading) : List String :=
  match t? with
  | some t =>
    if oGt t.value (100.4 : ℚ) || oLt t.value 97 then ["Abnormal body temperature"] else []
  | none => []

/-- The oxygen-saturation block of `checkNormalRanges`. -/
def oxyAlerts (o? : Option ValueReading) : List String :=
  match o? with
  | some o => if oLt o.value 95 then ["Low oxygen saturation"] else []
  | none => []

/-- `vitalsSchema.methods.checkNormalRanges`, block by block in source
order. -/
def checkNormalRanges (v : VitalsSnap) : List String :=
  bpAlerts v.bloodPressure ++ sugarAlerts v.bloodSugar ++ hrAlerts v.heartRate
    ++ tempAlerts v.temperature ++ oxyAlerts v.oxygenSaturation

/-! ## The Insight Builder (`processAIInsight`, lines 928–947)

The `new AiInsight({...})` construction from a normalized payload, and the
mongoose validation `save()` applies to it.  Field values are kept as `Json`
(the payload is untrusted); validation is modelled strictly per declared type
— mongoose additionally casts a few scalar shapes (`1` to `"1"` or `true`)
that no payload in the claims exercises. -/

/-- The fields of an `AiInsight` document the pipeline writes.  `modelName`
embeds the schema's `model` field. -/
structure InsightRec where
  rawText : String
  summaryEnglish : Json
  summaryUrdu : Json
  keyFindings : Json
  recommendations : Json
  doctorQuestions : Json
  riskFactors : Json
  followUpRequired : Json
  followUpTimeframe : Json
  confidence : Json
  processingTime : Nat
  modelName : String
deriving DecidableEq, Repr

/-- `new AiInsight({...})` as built by `processAIInsight` from the normalized
payload: each `a || b` default from the source, in order. -/
def buildInsight (analysis : Json) (rawText : String) (ptime : Nat) : InsightRec :=
  { rawText := rawText
    summaryEnglish :=
      Json.orElse ((analysis.getF "summary").bind (fun s => s.getF "english"))
        (Json.orElse (analysis.getF "summary") (.str "Analysis completed"))
    summaryUrdu :=
      Json.orElse ((analysis.getF "summary").bind (fun s => s.getF "urdu"))
        (.str "Roman Urdu summary not available")
    keyFindings := Json.orElse (analysis.getF "keyFindings") (.arr [])
    recommendations :=
      Json.orElse (analysis.getF "recommendations")
        (.obj [("english", .arr []), ("urdu", .arr [])])
    doctorQuestions :=
      Json.orElse (analysis.getF "doctorQuestions")
        (.obj [("english", .arr []), ("urdu", .arr [])])
    riskFactors := Json.orElse (analysis.getF "riskFactors") (.arr [])
    followUpRequired := Json.orElse (analysis.getF "followUpRequired") (.bool false)
    followUpTimeframe := Json.orElse (analysis.getF "followUpTimeframe") (.str "1-month")
    confidence := Json.orElse (analysis.getF "confidence") (.num 60)
    processingTime := ptime
    modelName := "gemini-1.0-pro" }

/-- A required mongoose `String` path: present, a string, and non-empty. -/
def validStr (v : Json) : Bool :=
  match v with
  | .str s => s ≠ ""
  | _ => false

/-- The `keyFindings.status` enum of `aiInsightSchema`. -/
def statusEnum : List String := ["normal", "high", "low", "abnormal", "critical"]

/-- The `riskFactors.level` enum of `aiInsightSchema`. -/
def levelEnum : List String := ["low", "medium", "high"]

/-- The `followUpTimeframe` enum of `aiInsightSchema`. -/
def timeframeEnum : List String :=
  ["1-week", "2-weeks", "1-month", "3-months", "6-months", "1-year"]

/-- One entry of `keyFindings`: required `parameter`, `value`, and a `status`
from its enum. -/
def keyFindingOk (v : Json) : Bool :=
  (match v.getF "parameter" with | some (.str s) => s ≠ "" | _ => false)
  && (match v.getF "value" with | some (.str s) => s ≠ "" | _ => false)
  && (match v.getF "status" with | some (.str s) => statusEnum.contains s | _ => false)

/-- One entry of `riskFactors`: a required `level` from its enum. -/
def riskFactorOk (v : Json) : Bool :=
  match v.getF "level" with
  | some (.str s) => levelEnum.contains s
  | _ => false

/-- An optional `[String]` path. -/
def optStrList : Option Json → Bool
  | none => true
  | some (.arr xs) => xs.all fun x => match x with | .str _ => true | _ => false
  | some _ => false

/-- A `{ english: [String], urdu: [String] }` subdocument. -/
def biListOk (v : Json) : Bool :=
  match v with
  | .obj _ => optStrList (v.getF "english") && optStrList (v.getF "urdu")
  | _ => false

/-- Mongoose validation of the built document, as `save()` runs it: required
non-empty strings, enum membership, and `confidence` within `min: 0, max:
100`.  Validation *rejects* an out-of-range value; nothing clamps it. -/
def validInsight (r : InsightRec) : Bool :=
  r.rawText ≠ ""
  && validStr r.summaryEnglish && validStr r.summaryUrdu
  && (match r.keyFindings with | .arr xs => xs.all keyFindingOk | _ => false)
  && biListOk r.recommendations && biListOk r.doctorQuestions
  && (match r.riskFactors with | .arr xs => xs.all riskFactorOk | _ => false)
  && (match r.followUpRequired with | .bool _ => true | _ => false)
  && (match r.followUpTimeframe with | .str s => timeframeEnum.contains s | _ => false)
  && (match r.confidence with | .num n => decide (0 ≤ n ∧ n ≤ 100) | _ => false)

/-! ## The Status Coordinator: File ↔ AiInsight state machine

One uploaded file and its insight store.  Each `await`ed database operation
may succeed or throw; a schedule fixes the outcomes, so a run of
`processAIInsight` (`src/unnamed/part_000` 821–966) or of the manual
`POST /api/ai/analyze-file/:fileId` route (`src/routes/vitals.js` 608–751) is
a deterministic function of its schedule.  Requests and the background job
are serialized (each runs to completion); the check-then-act race the spec
flags under concurrency is outside this model. -/

/-- `processingStatus` of `fileSchema`. -/
inductive PStatus where
  | pending
  | processing
  | completed
  | failed
deriving DecidableEq, Repr

/-- The processing fields of the one modelled `File` document. -/
structure FileRec where
  isProcessed : Bool
  status : PStatus
  aiInsight : Option Nat
deriving DecidableEq, Repr

/-- A file as `POST /api/files/upload` creates it (schema defaults). -/
def freshFile : FileRec := { isProcessed := false, status := .pending, aiInsight := none }

/-- The persistent store: the file under study and the ids of saved
`AiInsight` documents. -/
structure Store where
  file : Option FileRec
  insights : List Nat
  nextId : Nat
deriving DecidableEq, Repr

/-- The empty initial store. -/
def s0 : Store := { file := none, insights := [], nextId := 0 }

/-- `File.findByIdAndUpdate(fileId, { processingStatus: st })`: a no-op when
the document does not exist. -/
def setStatus (s : Store) (st : PStatus) : Store :=
  match s.file with
  | some f => { s with file := some { f with status := st } }
  | none => s

/-- `File.findByIdAndUpdate(fileId, { aiInsight, isProcessed: true,
processingStatus: 'completed' })`. -/
def linkInsight (s : Store) (id : Nat) : Store :=
  match s.file with
  | some f =>
    { s with file := some { f with aiInsight := some id, isProcessed := true,
                                   status := .completed } }
  | none => s

/-- `aiInsight.save()`'s effect on the store: a new document id. -/
def saveInsight (s : Store) : Store × Nat :=
  ({ s with insights := s.insights ++ [s.nextId], nextId := s.nextId + 1 }, s.nextId)

/-- A saved insight its file does not reference: the claim's "orphan". -/
def orphanIds (s : Store) : List Nat :=
  s.insights.filter fun i =>
    match s.file with
    | some f => f.aiInsight ≠ some i
    | none => true

/-- The shared `catch`-clause ending: `findByIdAndUpdate(fileId, failed)`,
which may itself throw (`ok = false`), leaving the store as it was.  A write
matching no document is not an observation, so it emits nothing. -/
def failTail (s : Store) (t : List Store) (ok : Bool) : Store × List Store :=
  if ok then
    match s.file with
    | some _ => (setStatus s .failed, t ++ [setStatus s .failed])
    | none => (s, t)
  else (s, t)

/-- A schedule for one `processAIInsight` run: the outcome of each fallible
step, the fetched file content, and the model oracle. -/
structure PipeSched where
  setProcessingOk : Bool
  findOk : Bool
  fileData : FileData
  fileType : String
  reportType : String
  modelReply : Option String
  saveOk : Bool
  completeOk : Bool
  failOk : Bool
deriving Repr

/-- `processAIInsight` (`src/unnamed/part_000` 821–966) as a store transformer
emitting the store after every successful write. -/
def runPipe (s : Store) (g : PipeSched) : Store × List Store :=
  if g.setProcessingOk = false then failTail s [] g.failOk
  else
    let s1 := setStatus s .processing
    if g.findOk = false then failTail s1 [s1] g.failOk
    else
      match s1.file with
      | none => failTail s1 [s1] g.failOk
      | some _ =>
        let ar := analyzeMedicalReport g.fileData g.fileType g.reportType g.modelReply 0
        let rawText :=
          match g.fileData with
          | .buffer _ => "Image file: report"
          | .text str => str
        let ins := buildInsight ar.data rawText ar.processingTime
        if (g.saveOk && validInsight ins) = false then failTail s1 [s1] g.failOk
        else
          let (s2, id) := saveInsight s1
          if g.completeOk = false then failTail s2 [s1, s2] g.failOk
          else
            let s3 := linkInsight s2 id
            (s3, [s1, s2, s3])

/-- A schedule for one manual-analysis request.  The insight it saves is the
hard-coded sample document of the route, which always passes validation, so
only a transient failure (`saveOk = false`) can make its `save()` throw. -/
structure RouteSched where
  findOk : Bool
  setProcessingOk : Bool
  saveOk : Bool
  completeOk : Bool
  failOk : Bool
deriving Repr

/-- `POST /api/ai/analyze-file/:fileId` (`src/routes/vitals.js` 608–751): the
store transform, the emitted writes, and the HTTP response. -/
def runRoute (s : Store) (g : RouteSched) : (Store × List Store) × (Nat × String) :=
  if g.findOk = false then (failTail s [] g.failOk, (500, "AI analysis failed"))
  else
    match s.file with
    | none => ((s, []), (404, "File not found"))
    | some f =>
      if f.isProcessed && f.aiInsight.isSome then
        ((s, []), (400, "File already processed"))
      else if g.setProcessingOk = false then
        (failTail s [] g.failOk, (500, "AI analysis failed"))
      else
        let s1 := setStatus s .processing
        if g.saveOk = false then (failTail s1 [s1] g.failOk, (500, "AI analysis failed"))
        else
          let (s2, id) := saveInsight s1
          if g.completeOk = false then
            (failTail s2 [s1, s2] g.failOk, (500, "AI analysis failed"))
          else
            let s3 := linkInsight s2 id
            ((s3, [s1, s2, s3]), (200, "AI analysis completed successfully"))

/-- An externally visible event of the modelled system.  An `upload` carries
the schedule of the background job it spawns: events are serialized, each
running to completion, with the detached job right after its upload — the
interleaving of a delayed job with later requests is the check-then-act race
the spec flags as an open concurrency question, outside this model. -/
inductive Ev where
  | upload (saveOk : Bool) (g : PipeSched)
  | analyze (g : RouteSched)

/-- One event's effect: `upload` creates the modelled file (when none exists
yet and its `save()` succeeds) and the spawned `processAIInsight` runs;
`analyze` is one manual-analysis request. -/
def stepEv (s : Store) (e : Ev) : Store × List Store :=
  match e with
  | .upload ok g =>
    if s.file.isSome then (s, [])
    else if ok then
      let s' := { s with file := some freshFile }
      let p := runPipe s' g
      (p.1, s' :: p.2)
    else (s, [])
  | .analyze g => (runRoute s g).1

/-- Run a list of events from a store, concatenating the write traces. -/
def exec : Store → List Ev → Store × List Store
  | s, [] => (s, [])
  | s, e :: es =>
    let p := stepEv s e
    let q := exec p.1 es
    (q.1, p.2 ++ q.2)

/-- The file's `processingStatus` in a store, when the file exists. -/
def statusOf (st : Store) : Option PStatus := st.file.map FileRec.status

/-- The file's `processingStatus` at every observation point of a history. -/
def statusTrace (evs : List Ev) : List PStatus :=
  (s0 :: (exec s0 evs).2).filterMap statusOf

/-! ## Properties under test -/

/-- The `fileSchema` invariant of the spec: `isProcessed` iff the status is
`completed` and the insight reference is non-null. -/
def procInv (f : FileRec) : Prop :=
  f.isProcessed = true ↔ (f.status = .completed ∧ f.aiInsight ≠ none)

/-- The half of `procInv` that does hold of every reachable store: a
`completed` file is marked processed and linked. -/
def completedLinked (s : Store) : Prop :=
  ∀ f, s.file = some f → f.status = .completed →
    f.isProcessed = true ∧ f.aiInsight.isSome = true

/-- One observed status step that never leaves `completed` for
`processing`. -/
def noBack (a b : PStatus) : Prop := ¬(a = .completed ∧ b = .processing)

/-- One step along the one-way chain pending → processing → {completed,
failed}: the claim's reading of "the status sequence is a prefix of" that
chain. -/
def forwardOnly (a b : PStatus) : Prop :=
  a = b ∨ (a = .pending ∧ b = .processing)
    ∨ (a = .processing ∧ (b = .completed ∨ b = .failed))

/-- The claimed atomicity of the Insight Builder stage: either the insight
exists, is linked, and the file is `completed`, or the file is `failed` and
no orphan insight remains. -/
def insightAtomic (s : Store) : Prop :=
  (∃ f id, s.file = some f ∧ f.status = .completed ∧ f.aiInsight = some id ∧ id ∈ s.insights)
  ∨ ((∃ f, s.file = some f ∧ f.status = .failed) ∧ orphanIds s = [])

/-- Histories whose manual-analysis requests never fail at the initial
`File.findOne` lookup (the lookup's own `catch` is what can clobber a
completed file). -/
def lookupSafe : Ev → Prop
  | .analyze g => g.findOk = true
  | .upload _ _ => True

/-- The store `processAIInsight` starts from: the file its upload just
created. -/
def startSt : Store := { file := some freshFile, insights := [], nextId := 0 }

/-- What the spec asserts of every Response Normalizer output: confidence in
[0,100], non-empty bilingual summary, enum-typed fields within their sets
(trivially so here: the degraded records carry no findings or risk
factors). -/
def normalizedOk (v : Json) : Prop :=
  (∃ n : Int, v.getF "confidence" = some (.num n) ∧ 0 ≤ n ∧ n ≤ 100)
  ∧ (∃ s, (v.getF "summary").bind (fun x => x.getF "english") = some (.str s) ∧ s ≠ "")
  ∧ (∃ s, (v.getF "summary").bind (fun x => x.getF "urdu") = some (.str s) ∧ s ≠ "")
  ∧ v.getF "keyFindings" = some (.arr [])
  ∧ v.getF "riskFactors" = some (.arr [])
  ∧ (∃ s, v.getF "followUpTimeframe" = some (.str s) ∧ s ∈ timeframeEnum)

/-- Every present vital value sits inside its normal range (the code's
thresholds: both blood-pressure bounds, both sugar bounds, heart rate,
temperature, oxygen saturation). -/
def inNormalRanges (v : VitalsSnap) : Prop :=
  (∀ bp ∈ v.bloodPressure,
    (∀ x ∈ bp.systolic, 90 ≤ x ∧ x ≤ 140) ∧ (∀ x ∈ bp.diastolic, 60 ≤ x ∧ x ≤ 90))
  ∧ (∀ bs ∈ v.bloodSugar, (∀ x ∈ bs.fasting, x ≤ 126) ∧ (∀ x ∈ bs.postPrandial, x ≤ 200))
  ∧ (∀ hr ∈ v.heartRate, ∀ x ∈ hr.value, 60 ≤ x ∧ x ≤ 100)
  ∧ (∀ t ∈ v.temperature, ∀ x ∈ t.value, 97 ≤ x ∧ x ≤ (100.4 : ℚ))
  ∧ (∀ o ∈ v.oxygenSaturation, ∀ x ∈ o.value, 95 ≤ x)

/-- A remainder list that cannot extend a rendered value: empty, or headed by
a character that extends neither a digit run nor a number (every JSON
delimiter qualifies). -/
def parseStop (rest : List Char) : Bool :=
  match rest with
  | [] => true
  | c :: _ => !isDig c && !(c = '.') && !(c = 'e') && !(c = 'E')

/-! ## Concrete inputs named by the claims -/

/-- The raw text of the spec's parse example (nested braces inside the
embedded object). -/
def c7text : String :=
  "Result: \x7b\"summary\":\x7b\"english\":\"ok\",\"urdu\":\"ok\"\x7d,\"keyFindings\":[],\"recommendations\":\x7b\"english\":[],\"urdu\":[]\x7d,\"doctorQuestions\":\x7b\"english\":[],\"urdu\":[]\x7d,\"riskFactors\":[],\"followUpRequired\":false,\"confidence\":90\x7d"

/-- The value embedded in `c7text`. -/
def c7value : Json :=
  .obj [
    ("summary", .obj [("english", .str "ok"), ("urdu", .str "ok")]),
    ("keyFindings", .arr []),
    ("recommendations", .obj [("english", .arr []), ("urdu", .arr [])]),
    ("doctorQuestions", .obj [("english", .arr []), ("urdu", .arr [])]),
    ("riskFactors", .arr []),
    ("followUpRequired", .bool false),
    ("confidence", .num 90)]

/-- A parseable block whose fields are out of schema range: the normalizer
returns it as-is. -/
def c1text : String := "\x7b\"confidence\":150\x7d"

/-- The spec's unparseable raw text. -/
def c8text : String := "the model said something unexpected"

/-- A schema-complete payload whose confidence lies outside [0,100]. -/
def payload150 : Json :=
  .obj [
    ("summary", .obj [("english", .str "ok"), ("urdu", .str "theek hai")]),
    ("keyFindings", .arr []),
    ("recommendations", .obj [("english", .arr []), ("urdu", .arr [])]),
    ("doctorQuestions", .obj [("english", .arr []), ("urdu", .arr [])]),
    ("riskFactors", .arr []),
    ("followUpRequired", .bool true),
    ("followUpTimeframe", .str "1-week"),
    ("confidence", .num 150)]

/-- A pipeline schedule in which everything succeeds and the model replies
with plain prose (normalized to the confidence-60 degraded record). -/
def pipeOk : PipeSched :=
  { setProcessingOk := true, findOk := true, fileData := .text "meta", fileType := "pdf",
    reportType := "blood-test", modelReply := some "hello", saveOk := true,
    completeOk := true, failOk := true }

/-- `pipeOk`, but `aiInsight.save()` throws. -/
def pipeSaveFail : PipeSched := { pipeOk with saveOk := false }

/-- `pipeOk`, but the `completed` link update throws after a successful
save. -/
def pipeLinkFail : PipeSched := { pipeOk with completeOk := false }

/-- `pipeOk`, with the model replying the serialized `payload150`. -/
def pipeP150 : PipeSched := { pipeOk with modelReply := some payload150.render }

/-- A manual-analysis request in which every step succeeds. -/
def routeOk : RouteSched :=
  { findOk := true, setProcessingOk := true, saveOk := true, completeOk := true,
    failOk := true }

/-- `routeOk`, but the initial `File.findOne` throws. -/
def routeNoFind : RouteSched := { routeOk with findOk := false }

/-! # Theorems

## The Vitals Range Evaluator -/

theorem oGt_false (a : Option ℚ) (b : ℚ) (h : ∀ x ∈ a, x ≤ b) : oGt a b = false := by
  cases a with
  | none => rfl
  | some x => simpa [oGt] using h x rfl

theorem oLt_false (a : Option ℚ) (b : ℚ) (h : ∀ x ∈ a, b ≤ x) : oLt a b = false := by
  cases a with
  | none => rfl
  | some x => simpa [oLt] using h x rfl

theorem mem_bpAlerts (s : String) (bp? : Option BPReading) :
    s ∈ bpAlerts bp? ↔ ∃ bp, bp? = some bp ∧
      ((s = "High blood pressure detected"
          ∧ (oGt bp.systolic 140 || oGt bp.diastolic 90) = true)
        ∨ (s = "Low blood pressure detected"
          ∧ (oLt bp.systolic 90 || oLt bp.diastolic 60) = true)) := by
  cases bp? with
  | none => simp [bpAlerts]
  | some bp =>
    by_cases h1 : (oGt bp.systolic 140 || oGt bp.diastolic 90) = true
      <;> by_cases h2 : (oLt bp.systolic 90 || oLt bp.diastolic 60) = true
      <;> simp_all [bpAlerts]

theorem mem_sugarAlerts (s : String) (bs? : Option SugarReading) :
    s ∈ sugarAlerts bs? ↔ ∃ bs, bs? = some bs ∧
      ((s = "High fasting blood sugar" ∧ oGt bs.fasting 126 = true)
        ∨ (s = "High post-meal blood sugar" ∧ oGt bs.postPrandial 200 = true)) := by
  cases bs? with
  | none => simp [sugarAlerts]
  | some bs =>
    by_cases h1 : oGt bs.fasting 126 = true
      <;> by_cases h2 : oGt bs.postPrandial 200 = true
      <;> simp_all [sugarAlerts]

theorem mem_hrAlerts (s : String) (hr? : Option ValueReading) :
    s ∈ hrAlerts hr? ↔ ∃ hr, hr? = some hr ∧
      s = "Abnormal heart rate" ∧ (oGt hr.value 100 || oLt hr.value 60) = true := by
  cases hr? with
  | none => simp [hrAlerts]
  | some hr =>
    by_cases h1 : (oGt hr.value 100 || oLt hr.value 60) = true
      <;> simp_all [hrAlerts]

theorem mem_tempAlerts (s : String) (t? : Option ValueReading) :
    s ∈ tempAlerts t? ↔ ∃ t, t? = some t ∧
      s = "Abnormal body temperature"
        ∧ (oGt t.value (100.4 : ℚ) || oLt t.value 97) = true := by
  cases t? with
  | none => simp [tempAlerts]
  | some t =>
    by_cases h1 : (oGt t.value (100.4 : ℚ) || oLt t.value 97) = true
      <;> simp_all [tempAlerts]

theorem mem_oxyAlerts (s : String) (o? : Option ValueReading) :
    s ∈ oxyAlerts o? ↔ ∃ o, o? = some o ∧
      s = "Low oxygen saturation" ∧ oLt o.value 95 = true := by
  cases o? with
  | none => simp [oxyAlerts]
  | some o =>
    by_cases h1 : oLt o.value 95 = true <;> simp_all [oxyAlerts]

/-- C10: `checkNormalRanges` is total and pure over any partially-populated
snapshot (it is a Lean function of the snapshot alone): a snapshot missing
every field yields `[]`; "High blood pressure detected" appears iff blood
pressure is present with systolic > 140 or diastolic > 90 (absent components
compare false), so systolic 150 / diastolic 80 yields it; the analogous fixed
thresholds govern fasting sugar > 126, heart rate outside [60,100],
temperature outside [97,100.4], oxygen saturation < 95; and a snapshot whose
present values all sit inside the normal ranges yields `[]`. -/
theorem checkNormalRanges_spec :
    checkNormalRanges {} = []
    ∧ (∀ v : VitalsSnap,
        "High blood pressure detected" ∈ checkNormalRanges v ↔
          ∃ bp, v.bloodPressure = some bp ∧
            (oGt bp.systolic 140 = true ∨ oGt bp.diastolic 90 = true))
    ∧ "High blood pressure detected" ∈ checkNormalRanges
        { bloodPressure := some { systolic := some 150, diastolic := some 80 } }
    ∧ (∀ v : VitalsSnap,
        "High fasting blood sugar" ∈ checkNormalRanges v ↔
          ∃ bs, v.bloodSugar = some bs ∧ oGt bs.fasting 126 = true)
    ∧ (∀ v : VitalsSnap,
        "Abnormal heart rate" ∈ checkNormalRanges v ↔
          ∃ hr, v.heartRate = some hr ∧ (oGt hr.value 100 = true ∨ oLt hr.value 60 = true))
    ∧ (∀ v : VitalsSnap,
        "Abnormal body temperature" ∈ checkNormalRanges v ↔
          ∃ t, v.temperature = some t ∧
            (oGt t.value (100.4 : ℚ) = true ∨ oLt t.value 97 = true))
    ∧ (∀ v : VitalsSnap,
        "Low oxygen saturation" ∈ checkNormalRanges v ↔
          ∃ o, v.oxygenSaturation = some o ∧ oLt o.value 95 = true)
    ∧ (∀ v : VitalsSnap, inNormalRanges v → checkNormalRanges v = []) := by
  refine ⟨rfl, ?_, ?_, ?_, ?_, ?_, ?_, ?_⟩
  · intro v
    simp [checkNormalRanges, mem_bpAlerts, mem_sugarAlerts, mem_hrAlerts, mem_tempAlerts,
      mem_oxyAlerts]
  · norm_num [checkNormalRanges, bpAlerts, sugarAlerts, hrAlerts, tempAlerts, oxyAlerts,
      oGt, oLt]
  · intro v
    simp [checkNormalRanges, mem_bpAlerts, mem_sugarAlerts, mem_hrAlerts, mem_tempAlerts,
      mem_oxyAlerts]
  · intro v
    simp [checkNormalRanges, mem_bpAlerts, mem_sugarAlerts, mem_hrAlerts, mem_tempAlerts,
      mem_oxyAlerts]
  · intro v
    simp [checkNormalRanges, mem_bpAlerts, mem_sugarAlerts, mem_hrAlerts, mem_tempAlerts,
      mem_oxyAlerts]
  · intro v
    simp [checkNormalRanges, mem_bpAlerts, mem_sugarAlerts, mem_hrAlerts, mem_tempAlerts,
      mem_oxyAlerts]
  · intro v hv
    obtain ⟨h1, h2, h3, h4, h5⟩ := hv
    have e1 : bpAlerts v.bloodPressure = [] := by
      cases hv1 : v.bloodPressure with
      | none => rfl
      | some bp =>
        obtain ⟨ha, hb⟩ := h1 bp hv1
        simp [bpAlerts,
          oGt_false _ _ fun x hx => (ha x hx).2,
          oGt_false _ _ fun x hx => (hb x hx).2,
          oLt_false _ _ fun x hx => (ha x hx).1,
          oLt_false _ _ fun x hx => (hb x hx).1]
    have e2 : sugarAlerts v.bloodSugar = [] := by
      cases hv2 : v.bloodSugar with
      | none => rfl
      | some bs =>
        obtain ⟨ha, hb⟩ := h2 bs hv2
        simp [sugarAlerts, oGt_false _ _ ha, oGt_false _ _ hb]
    have e3 : hrAlerts v.heartRate = [] := by
      cases hv3 : v.heartRate with
      | none => rfl
      | some hr =>
        have ha := h3 hr hv3
        simp [hrAlerts,
          oGt_false _ _ fun x hx => (ha x hx).2,
          oLt_false _ _ fun x hx => (ha x hx).1]
    have e4 : tempAlerts v.temperature = [] := by
      cases hv4 : v.temperature with
      | none => rfl
      | some t =>
        have ha := h4 t hv4
        simp [tempAlerts,
          oGt_false _ _ fun x hx => (ha x hx).2,
          oLt_false _ _ fun x hx => (ha x hx).1]
    have e5 : oxyAlerts v.oxygenSaturation = [] := by
      cases hv5 : v.oxygenSaturation with
      | none => rfl
      | some o =>
        have ha := h5 o hv5
        simp [oxyAlerts, oLt_false _ _ ha]
    simp [checkNormalRanges, e1, e2, e3, e4, e5]

/-- Witness for C10's hypothesis-bearing conjunct: a fully-populated snapshot
inside every normal range produces no alerts. -/
theorem checkNormalRanges_spec_witness :
    inNormalRanges
      { bloodPressure := some { systolic := some 120, diastolic := some 80 },
        bloodSugar := some { fasting := some 100, postPrandial := some 140 },
        heartRate := some { value := some 72 },
        temperature := some { value := some (98.6 : ℚ) },
        oxygenSaturation := some { value := some 98 } }
    ∧ checkNormalRanges
      { bloodPressure := some { systolic := some 120, diastolic := some 80 },
        bloodSugar := some { fasting := some 100, postPrandial := some 140 },
        heartRate := some { value := some 72 },
        temperature := some { value := some (98.6 : ℚ) },
        oxygenSaturation := some { value := some 98 } } = [] := by
  have hn : inNormalRanges
      { bloodPressure := some { systolic := some 120, diastolic := some 80 },
        bloodSugar := some { fasting := some 100, postPrandial := some 140 },
        heartRate := some { value := some 72 },
        temperature := some { value := some (98.6 : ℚ) },
        oxygenSaturation := some { value := some 98 } } := by
    norm_num [inNormalRanges, Option.mem_def]
  exact ⟨hn, checkNormalRanges_spec.2.2.2.2.2.2.2 _ hn⟩

/-! ## The Model Invoker -/

/-- C2: `analyzeMedicalReport` always resolves with `success = true`; when the
model call throws (`reply = none`) or the image branch is handed non-Buffer
data, it returns the synthesized fallback: schema-shaped payload, confidence
30, empty `keyFindings` and `riskFactors`, non-empty bilingual guidance,
`followUpRequired = true`, `followUpTimeframe = "1-month"`, and the
`fallback = true` marker. -/
theorem analyzeMedicalReport_never_throws (fd : FileData) (ft rt : String)
    (reply : Option String) (el : Nat) :
    (analyzeMedicalReport fd ft rt reply el).success = true
    ∧ ((reply = none ∨ (ft = "image" ∧ ∃ s, fd = .text s)) →
        analyzeMedicalReport fd ft rt reply el = fallbackResult el)
    ∧ (fallbackResult el).success = true
    ∧ (fallbackResult el).fallback = true
    ∧ (fallbackResult el).data = fallbackResponse
    ∧ fallbackResponse.getF "confidence" = some (.num 30)
    ∧ fallbackResponse.getF "keyFindings" = some (.arr [])
    ∧ fallbackResponse.getF "riskFactors" = some (.arr [])
    ∧ fallbackResponse.getF "followUpRequired" = some (.bool true)
    ∧ fallbackResponse.getF "followUpTimeframe" = some (.str "1-month")
    ∧ (∃ s, (fallbackResponse.getF "summary").bind (fun x => x.getF "english")
          = some (.str s) ∧ s ≠ "")
    ∧ (∃ s, (fallbackResponse.getF "summary").bind (fun x => x.getF "urdu")
          = some (.str s) ∧ s ≠ "") := by
  refine ⟨?_, ?_, rfl, rfl, rfl, rfl, rfl, rfl, rfl, rfl,
    ⟨_, rfl, by decide⟩, ⟨_, rfl, by decide⟩⟩
  · unfold analyzeMedicalReport
    split_ifs with h
    · cases fd <;> cases reply <;> rfl
    · cases reply <;> rfl
  · rintro (rfl | ⟨hft, s, rfl⟩)
    · unfold analyzeMedicalReport
      split_ifs with h
      · cases fd <;> rfl
      · rfl
    · simp [analyzeMedicalReport, hft]

/-- Witness for C2: a thrown model call on the text path, and non-Buffer image
data, both collapse to the fallback result. -/
theorem analyzeMedicalReport_never_throws_witness :
    analyzeMedicalReport (.text "report text") "pdf" "blood-test" none 7 = fallbackResult 7
    ∧ analyzeMedicalReport (.text "x") "image" "other" (some "reply") 3 = fallbackResult 3 :=
  ⟨(analyzeMedicalReport_never_throws _ "pdf" _ _ _).2.1 (Or.inl rfl),
   (analyzeMedicalReport_never_throws _ "image" _ _ _).2.1 (Or.inr ⟨rfl, _, rfl⟩)⟩

/-! ## The Response Normalizer on the spec's concrete texts -/

set_option maxRecDepth 100000 in
/-- C7: on the spec's example text — prose followed by an embedded object with
nested braces — the normalizer extracts the block, parses it, and the
returned record has confidence 90. -/
theorem parseGemini_c7 :
    parseGeminiResponse c7text = c7value
    ∧ c7value.getF "confidence" = some (.num 90) := by
  constructor <;> decide

theorem parseGemini_noBlock (t : String) (h : braceMatch t = none) :
    parseGeminiResponse t = noJsonRecord t := by
  simp [parseGeminiResponse, h]

theorem parseGemini_badBlock (t b : String) (hb : braceMatch t = some b)
    (hp : jsonParse b = none) : parseGeminiResponse t = unparseableRecord := by
  simp [parseGeminiResponse, hb, hp]

theorem parseGemini_goodBlock (t b : String) (v : Json) (hb : braceMatch t = some b)
    (hp : jsonParse b = some v) : parseGeminiResponse t = v := by
  simp [parseGeminiResponse, hb, hp]

/-- C8: a text with no `{...}` block maps to the deterministic confidence-60
degraded record — empty findings and risk factors, the generic bilingual
recommendation, the summary a truncation of the raw text — in particular the
spec's `"the model said something unexpected"`; and a located block that fails
to parse maps to the confidence-30 degraded record. -/
theorem parseGemini_degraded :
    (∀ t, braceMatch t = none → parseGeminiResponse t = noJsonRecord t)
    ∧ parseGeminiResponse c8text = noJsonRecord c8text
    ∧ (noJsonRecord c8text).getF "confidence" = some (.num 60)
    ∧ (noJsonRecord c8text).getF "keyFindings" = some (.arr [])
    ∧ (noJsonRecord c8text).getF "riskFactors" = some (.arr [])
    ∧ (noJsonRecord c8text).getF "recommendations" = some (.obj [
        ("english", .arr [.str "Consult with your doctor for detailed analysis"]),
        ("urdu", .arr [.str "Apne doctor se detailed analysis ke liye consult karein"])])
    ∧ (∀ t, (noJsonRecord t).getF "summary" = some (.obj [
        ("english", .str (jsSubstr t 500 ++ "...")),
        ("urdu", .str "Report ka summary Roman Urdu mein translate karna hai")]))
    ∧ (∀ t b, braceMatch t = some b → jsonParse b = none →
        parseGeminiResponse t = unparseableRecord)
    ∧ unparseableRecord.getF "confidence" = some (.num 30) := by
  refine ⟨fun t h => parseGemini_noBlock t h, parseGemini_noBlock _ (by decide), by decide,
    by decide, by decide, by decide, fun t => rfl,
    fun t b hb hp => parseGemini_badBlock t b hb hp, by decide⟩

/-- Witness for C8: the no-block branch at the spec's text and the
failing-block branch at a concrete malformed block. -/
theorem parseGemini_degraded_witness :
    parseGeminiResponse c8text = noJsonRecord c8text
    ∧ parseGeminiResponse "\x7boops\x7d" = unparseableRecord :=
  ⟨parseGemini_degraded.1 c8text (by decide),
   parseGemini_degraded.2.2.2.2.2.2.2.1 "\x7boops\x7d" "\x7boops\x7d" (by decide) (by decide)⟩

/-- C1 counterexample: on the raw text `{"confidence":150}` — which contains a
parseable JSON block with an out-of-range field — `parseGeminiResponse`
returns the parsed object unvalidated: confidence 150 ∉ [0,100] and no
summary at all, refuting "every raw text maps to a record with confidence in
[0,100] and non-empty bilingual summaries". -/
theorem parseGemini_unvalidated_cex :
    parseGeminiResponse c1text = .obj [("confidence", .num 150)]
    ∧ (parseGeminiResponse c1text).getF "confidence" = some (.num 150)
    ∧ (parseGeminiResponse c1text).getF "summary" = none
    ∧ ¬((150 : Int) ≤ 100) :=
  ⟨by decide, by decide, by decide, by omega⟩

/-- C1 amended: the normalizer never throws (it is total) and returns either
one of the two degraded records — which do satisfy the claimed bounds:
confidence in [0,100], non-empty bilingual summaries, empty enum-typed lists,
a valid follow-up timeframe — or, when the text contains a parseable block,
that block's parse *as-is*, with no validation of its fields. -/
theorem parseGemini_amended (t : String) :
    (parseGeminiResponse t = noJsonRecord t ∨ parseGeminiResponse t = unparseableRecord
      ∨ ∃ b v, braceMatch t = some b ∧ jsonParse b = some v ∧ parseGeminiResponse t = v)
    ∧ normalizedOk (noJsonRecord t)
    ∧ normalizedOk unparseableRecord := by
  refine ⟨?_, ?_, ?_⟩
  · cases hb : braceMatch t with
    | none => exact Or.inl (parseGemini_noBlock t hb)
    | some b =>
      cases hp : jsonParse b with
      | none => exact Or.inr (Or.inl (parseGemini_badBlock t b hb hp))
      | some v => exact Or.inr (Or.inr ⟨b, v, rfl, hp, parseGemini_goodBlock t b v hb hp⟩)
  · refine ⟨⟨60, rfl, by omega, by omega⟩, ⟨_, rfl, ?_⟩, ⟨_, rfl, by decide⟩, rfl, rfl,
      ⟨_, rfl, by decide⟩⟩
    intro h
    have hl := congrArg String.length h
    rw [String.length_append, show ("..." : String).length = 3 from rfl,
      show ("" : String).length = 0 from rfl] at hl
    omega
  · exact ⟨⟨30, rfl, by omega, by omega⟩, ⟨_, rfl, by decide⟩, ⟨_, rfl, by decide⟩, rfl, rfl,
      ⟨_, rfl, by decide⟩⟩

/-! ## The `JSON.parse` / `JSON.stringify` round trip

Needed for C9: re-parsing a serialized degraded record recovers the record.
The proof follows the usual codec layering — character escapes first, then
digit runs, then the fuel-indexed value parser. -/

theorem hexv_hexCh (d : Nat) (h : d < 16) : hexv (hexCh d) = some d := by
  interval_cases d <;> decide

theorem isDig_digitCh (d : Nat) (h : d < 10) : isDig (digitCh d) = true := by
  interval_cases d <;> decide

theorem toNat_digitCh (d : Nat) (h : d < 10) : (digitCh d).toNat = 48 + d := by
  interval_cases d <;> decide

theorem digitCh_zero (d : Nat) (h : d < 10) : digitCh d = '0' ↔ d = 0 := by
  interval_cases d <;> decide

theorem isDig_not_ws {c : Char} (h : isDig c = true) : wsCh c = false := by
  cases hw : wsCh c with
  | false => rfl
  | true =>
    simp only [wsCh, Bool.or_eq_true, beq_iff_eq] at hw
    rcases hw with rfl | rfl | rfl | rfl <;> exact absurd h (by decide)

theorem isDig_ne {c : Char} (h : isDig c = true) :
    c ≠ '-' ∧ c ≠ '.' ∧ c ≠ 'e' ∧ c ≠ 'E' ∧ c ≠ ']' ∧ c ≠ '\x7d' ∧ c ≠ 'n' ∧ c ≠ 't'
      ∧ c ≠ 'f' ∧ c ≠ '"' ∧ c ≠ '[' ∧ c ≠ '\x7b' ∧ c ≠ ',' := by
  refine ⟨?_, ?_, ?_, ?_, ?_, ?_, ?_, ?_, ?_, ?_, ?_, ?_, ?_⟩
    <;> intro e <;> subst e <;> exact absurd h (by decide)

theorem chomp_cons {c : Char} (h : wsCh c = false) (cs : List Char) :
    chomp (c :: cs) = c :: cs := by
  simp [chomp, h]

/-- Parsing one escaped character in a string body undoes the escape. -/
theorem strBody_escChar (c : Char) (L : List Char) :
    strBody (escChar c ++ L) = (strBody L).map fun p => (c :: p.1, p.2) := by
  by_cases h1 : c = '"'
  · subst h1
    rw [show escChar '"' ++ L = '\\' :: '"' :: L from rfl, strBody.eq_def]
    cases hL : strBody L <;> simp [unesc, hL]
  by_cases h2 : c = '\\'
  · subst h2
    rw [show escChar '\\' ++ L = '\\' :: '\\' :: L from rfl, strBody.eq_def]
    cases hL : strBody L <;> simp [unesc, hL]
  by_cases h3 : c = '\x08'
  · subst h3
    rw [show escChar '\x08' ++ L = '\\' :: 'b' :: L from rfl, strBody.eq_def]
    cases hL : strBody L <;> simp [unesc, hL]
  by_cases h4 : c = '\x09'
  · subst h4
    rw [show escChar '\x09' ++ L = '\\' :: 't' :: L from rfl, strBody.eq_def]
    cases hL : strBody L <;> simp [unesc, hL]
  by_cases h5 : c = '\x0a'
  · subst h5
    rw [show escChar '\x0a' ++ L = '\\' :: 'n' :: L from rfl, strBody.eq_def]
    cases hL : strBody L <;> simp [unesc, hL]
  by_cases h6 : c = '\x0c'
  · subst h6
    rw [show escChar '\x0c' ++ L = '\\' :: 'f' :: L from rfl, strBody.eq_def]
    cases hL : strBody L <;> simp [unesc, hL]
  by_cases h7 : c = '\x0d'
  · subst h7
    rw [show escChar '\x0d' ++ L = '\\' :: 'r' :: L from rfl, strBody.eq_def]
    cases hL : strBody L <;> simp [unesc, hL]
  by_cases h8 : c.toNat < 32
  · have e1 : hexv (hexCh (c.toNat / 16)) = some (c.toNat / 16) := hexv_hexCh _ (by omega)
    have e2 : hexv (hexCh (c.toNat % 16)) = some (c.toNat % 16) := hexv_hexCh _ (by omega)
    have e3 : c.toNat / 16 * 16 + c.toNat % 16 = c.toNat := by omega
    have harg : escChar c ++ L
        = '\\' :: 'u' :: '0' :: '0' :: hexCh (c.toNat / 16) :: hexCh (c.toNat % 16) :: L := by
      simp [escChar, h1, h2, h3, h4, h5, h6, h7, h8]
    rw [harg, strBody.eq_def]
    cases hL : strBody L <;>
      simp [e1, e2, e3, show hexv '0' = some 0 from rfl, Char.ofNat_toNat, hL]
  · have harg : escChar c ++ L = c :: L := by
      simp [escChar, h1, h2, h3, h4, h5, h6, h7, h8]
    rw [harg, strBody.eq_def]
    cases hL : strBody L <;> simp [h1, h2, h8, hL]

/-- The string-body codec round-trip. -/
theorem strBody_escBody : ∀ (cs rest : List Char),
    strBody (escBody cs ++ '"' :: rest) = some (cs, rest)
  | [], rest => by
    rw [show escBody [] ++ '"' :: rest = '"' :: rest from rfl, strBody.eq_def]
    simp
  | c :: cs, rest => by
    rw [escBody, List.append_assoc, strBody_escChar, strBody_escBody cs rest]
    rfl

theorem natChars_digits (n : Nat) : ∀ c ∈ natChars n, isDig c = true := by
  induction n using Nat.strong_induction_on with
  | _ n ih =>
    rw [natChars.eq_def]
    by_cases h : n < 10
    · simp only [if_pos h, List.mem_singleton]
      rintro c rfl
      exact isDig_digitCh _ (by omega)
    · simp only [if_neg h]
      intro c hc
      rcases List.mem_append.mp hc with hc | hc
      · exact ih (n / 10) (Nat.div_lt_self (by omega) (by omega)) c hc
      · rw [List.mem_singleton] at hc
        subst hc
        exact isDig_digitCh _ (Nat.mod_lt _ (by omega))

theorem natChars_shape (n : Nat) :
    ∃ c t, natChars n = c :: t ∧ isDig c = true ∧ (1 ≤ n → c ≠ '0') := by
  induction n using Nat.strong_induction_on with
  | _ n ih =>
    rw [natChars.eq_def]
    by_cases h : n < 10
    · refine ⟨digitCh n, [], by simp [h], isDig_digitCh _ h, fun h1 he => ?_⟩
      have := (digitCh_zero n h).mp he
      omega
    · obtain ⟨c, t, he, hd, hz⟩ := ih (n / 10) (Nat.div_lt_self (by omega) (by omega))
      exact ⟨c, t ++ [digitCh (n % 10)], by simp [h, he],
        hd, fun _ => hz (by omega)⟩

theorem digVal_snoc (ds : List Char) (c : Char) :
    digVal (ds ++ [c]) = digVal ds * 10 + (c.toNat - 48) := by
  simp [digVal, List.foldl_append]

theorem digVal_natChars (n : Nat) : digVal (natChars n) = n := by
  induction n using Nat.strong_induction_on with
  | _ n ih =>
    rw [natChars.eq_def]
    by_cases h : n < 10
    · simp only [if_pos h]
      simp [digVal, toNat_digitCh n h]
    · rw [if_neg h, digVal_snoc, ih (n / 10) (Nat.div_lt_self (by omega) (by omega)),
        toNat_digitCh _ (Nat.mod_lt _ (by omega))]
      omega

theorem parseStop_head {c : Char} {r : List Char} (h : parseStop (c :: r) = true) :
    isDig c = false ∧ c ≠ '.' ∧ c ≠ 'e' ∧ c ≠ 'E' := by
  simp only [parseStop, Bool.and_eq_true, Bool.not_eq_true', decide_eq_false_iff_not] at h
  exact ⟨h.1.1.1, h.1.1.2, h.1.2, h.2⟩

theorem digSpan_stop {rest : List Char} (h : parseStop rest = true) :
    digSpan rest = ([], rest) := by
  cases rest with
  | nil => rfl
  | cons c r => simp [digSpan, (parseStop_head h).1]

theorem digSpan_run : ∀ (ds rest : List Char), (∀ c ∈ ds, isDig c = true) →
    digSpan rest = ([], rest) → digSpan (ds ++ rest) = (ds, rest)
  | [], rest, _, hr => by simpa using hr
  | c :: ds, rest, hd, hr => by
    have hc : isDig c = true := hd c (by simp)
    have ih := digSpan_run ds rest (fun x hx => hd x (by simp [hx])) hr
    simp [digSpan, hc, ih]

theorem extStop_of_parseStop {rest : List Char} (h : parseStop rest = true) :
    extStop rest = false := by
  cases rest with
  | nil => rfl
  | cons c r =>
    obtain ⟨-, h2, h3, h4⟩ := parseStop_head h
    simp [extStop, h2, h3, h4]

/-- The integer codec round-trip: `intSpan` inverts `intChars` whenever the
remainder cannot extend the number. -/
theorem intSpan_intChars (i : Int) (rest : List Char) (h : parseStop rest = true) :
    intSpan (intChars i ++ rest) = some (i, rest) := by
  obtain ⟨c, t, he, hd, hz⟩ := natChars_shape i.natAbs
  have hspan : digSpan (natChars i.natAbs ++ rest) = (natChars i.natAbs, rest) :=
    digSpan_run _ _ (natChars_digits i.natAbs) (digSpan_stop h)
  have hnolead : ¬(c = '0' ∧ t ≠ []) := by
    rintro ⟨rfl, ht⟩
    rcases Nat.eq_zero_or_pos i.natAbs with h0 | h0
    · rw [h0] at he
      rw [show natChars 0 = ['0'] from by rw [natChars.eq_def]; decide] at he
      exact ht (List.cons.inj he).2.symm
    · exact hz h0 rfl
  have hdv : digVal (c :: t) = i.natAbs := by
    rw [← he, digVal_natChars]
  rw [he] at hspan
  simp only [List.cons_append] at hspan
  by_cases hneg : i < 0
  · have harg : intChars i ++ rest = '-' :: (c :: (t ++ rest)) := by
      simp [intChars, hneg, he]
    rw [harg]
    simp only [intSpan]
    simp [hspan, hnolead, extStop_of_parseStop h, hdv, hneg]
    have habs := abs_of_neg hneg
    omega
  · have harg : intChars i ++ rest = c :: (t ++ rest) := by
      simp [intChars, hneg, he]
    rw [harg]
    simp only [intSpan]
    simp [hspan, (isDig_ne hd).1, hnolead, extStop_of_parseStop h, hdv]
    omega

/-- Every rendered value starts with a printable character that closes no
bracket: the parser's head dispatch never mistakes it for whitespace or a
delimiter. -/
theorem renderL_head (v : Json) :
    ∃ c t, Json.renderL v = c :: t ∧ wsCh c = false ∧ c ≠ ']' ∧ c ≠ '\x7d' := by
  cases v with
  | num n =>
    by_cases hneg : n < 0
    · refine ⟨'-', natChars n.natAbs, by simp [Json.renderL, intChars, hneg], ?_, ?_, ?_⟩ <;>
        decide
    · obtain ⟨c, t, he, hd, -⟩ := natChars_shape n.natAbs
      obtain ⟨-, -, -, -, h5, h6, -⟩ := isDig_ne hd
      exact ⟨c, t, by simp [Json.renderL, intChars, hneg, he], isDig_not_ws hd, h5, h6⟩
  | bool b => cases b <;> refine ⟨_, _, rfl, ?_, ?_, ?_⟩ <;> decide
  | null => refine ⟨'n', _, rfl, ?_, ?_, ?_⟩ <;> decide
  | str s => refine ⟨'"', _, rfl, ?_, ?_, ?_⟩ <;> decide
  | arr xs => refine ⟨'[', _, rfl, ?_, ?_, ?_⟩ <;> decide
  | obj fs => refine ⟨'\x7b', _, rfl, ?_, ?_, ?_⟩ <;> decide

theorem chomp_renderL (v : Json) (x : List Char) :
    chomp (Json.renderL v ++ x) = Json.renderL v ++ x := by
  obtain ⟨c, t, he, hw, -, -⟩ := renderL_head v
  rw [he, List.cons_append, chomp_cons hw]

theorem itemsL_cons (y : Json) (ys : List Json) :
    Json.itemsL (y :: ys) = Json.renderL y ++ itemsSep ys := by
  cases ys <;> simp [Json.itemsL, itemsSep]

theorem fieldsL_cons (k : String) (v : Json) (fs : List (String × Json)) :
    Json.fieldsL ((k, v) :: fs)
      = '"' :: (escBody k.data ++ '"' :: ':' :: (Json.renderL v ++ fieldsSep fs)) := by
  cases fs <;> simp [Json.fieldsL, fieldsSep]

/-- One-step unfolding of `jItems` at successor fuel (definitional). -/
theorem jItems_step (f : Nat) (cs : List Char) :
    jItems (f + 1) cs
      = (jVal f cs).bind fun p =>
          match chomp p.2 with
          | ',' :: r' => (jItems f (chomp r')).map fun q => (p.1 :: q.1, q.2)
          | ']' :: r' => some ([p.1], r')
          | _ => none := rfl

/-- One-step unfolding of `jFields` at successor fuel (definitional). -/
theorem jFields_step (f : Nat) (cs : List Char) :
    jFields (f + 1) cs
      = (match chomp cs with
         | '"' :: r =>
           match strBody r with
           | none => none
           | some (k, r1) =>
             match chomp r1 with
             | ':' :: r2 =>
               (jVal f (chomp r2)).bind fun p =>
                 match chomp p.2 with
                 | ',' :: r4 =>
                   (jFields f (chomp r4)).map fun q => ((String.mk k, p.1) :: q.1, q.2)
                 | '\x7d' :: r4 => some ([(String.mk k, p.1)], r4)
                 | _ => none
             | _ => none
         | _ => none) := rfl

mutual

/-- The value codec round-trip, fuel-indexed: the fuel needs only to exceed
the rendered length. -/
theorem jVal_render : ∀ (v : Json) (fuel : Nat) (rest : List Char),
    (Json.renderL v).length < fuel → parseStop rest = true →
    jVal fuel (Json.renderL v ++ rest) = some (v, rest)
  | .null, fuel, rest, hf, _ => by
    cases fuel with
    | zero => omega
    | succ f => simp [Json.renderL, jVal, chomp, wsCh]
  | .bool true, fuel, rest, hf, _ => by
    cases fuel with
    | zero => omega
    | succ f => simp [Json.renderL, jVal, chomp, wsCh]
  | .bool false, fuel, rest, hf, _ => by
    cases fuel with
    | zero => omega
    | succ f => simp [Json.renderL, jVal, chomp, wsCh]
  | .num n, fuel, rest, hf, hr => by
    cases fuel with
    | zero => omega
    | succ f =>
      obtain ⟨c, t, he, hd, -⟩ := natChars_shape n.natAbs
      obtain ⟨hm, -, -, -, -, -, hn, ht, hfc, hq, hbk, hbc, -⟩ := isDig_ne hd
      by_cases hneg : n < 0
      · have harg : Json.renderL (.num n) ++ rest = '-' :: (natChars n.natAbs ++ rest) := by
          simp [Json.renderL, intChars, hneg]
        have hback : '-' :: (natChars n.natAbs ++ rest) = intChars n ++ rest := by
          simp [intChars, hneg]
        rw [harg, jVal.eq_def]
        simp only [chomp_cons (show wsCh '-' = false from rfl)]
        rw [if_pos (Or.inl trivial), hback, intSpan_intChars n rest hr]
        rfl
      · have harg : Json.renderL (.num n) ++ rest = c :: (t ++ rest) := by
          simp [Json.renderL, intChars, hneg, he]
        have hback : c :: (t ++ rest) = intChars n ++ rest := by
          simp [intChars, hneg, he]
        rw [harg, jVal.eq_def]
        simp only [chomp_cons (isDig_not_ws hd)]
        rw [if_neg hn, if_neg ht, if_neg hfc, if_neg hq, if_neg hbk, if_neg hbc,
          if_pos (Or.inr hd), hback, intSpan_intChars n rest hr]
        rfl
  | .str s, fuel, rest, hf, _ => by
    cases fuel with
    | zero => omega
    | succ f =>
      have harg : Json.renderL (.str s) ++ rest = '"' :: (escBody s.data ++ '"' :: rest) := by
        simp [Json.renderL]
      rw [harg, jVal.eq_def]
      simp [chomp, wsCh, strBody_escBody]
  | .arr [], fuel, rest, hf, _ => by
    cases fuel with
    | zero => omega
    | succ f =>
      have harg : Json.renderL (.arr []) ++ rest = '[' :: ']' :: rest := by
        simp [Json.renderL, Json.itemsL]
      rw [harg, jVal.eq_def]
      simp [chomp, wsCh]
  | .arr (x :: xs), fuel, rest, hf, _ => by
    cases fuel with
    | zero => omega
    | succ f =>
      have hlen : (Json.itemsL (x :: xs)).length + 1 < f := by
        simp only [Json.renderL, List.length_cons, List.length_append,
          List.length_singleton] at hf
        omega
      have key := jItems_render x xs f rest hlen
      have harg : Json.renderL (.arr (x :: xs)) ++ rest
          = '[' :: (Json.itemsL (x :: xs) ++ ']' :: rest) := by
        simp [Json.renderL]
      obtain ⟨c0, t0, he0, hw0, hbr0, -⟩ := renderL_head x
      have hitems : Json.itemsL (x :: xs) ++ ']' :: rest
          = c0 :: ((t0 ++ itemsSep xs) ++ ']' :: rest) := by
        rw [itemsL_cons, he0]
        simp [List.append_assoc]
      rw [harg, jVal.eq_def]
      simp only [chomp_cons (show wsCh '[' = false from rfl)]
      rw [hitems]
      simp only [chomp_cons hw0]
      rw [if_neg hbr0, ← hitems, key]
      simp
  | .obj [], fuel, rest, hf, _ => by
    cases fuel with
    | zero => omega
    | succ f =>
      have harg : Json.renderL (.obj []) ++ rest = '\x7b' :: '\x7d' :: rest := by
        simp [Json.renderL, Json.fieldsL]
      rw [harg, jVal.eq_def]
      simp [chomp, wsCh]
  | .obj ((k, v) :: fs), fuel, rest, hf, _ => by
    cases fuel with
    | zero => omega
    | succ f =>
      have hlen : (Json.fieldsL ((k, v) :: fs)).length + 1 < f := by
        simp only [Json.renderL, List.length_cons, List.length_append,
          List.length_singleton] at hf
        omega
      have key := jFields_render k v fs f rest hlen
      have harg : Json.renderL (.obj ((k, v) :: fs)) ++ rest
          = '\x7b' :: (Json.fieldsL ((k, v) :: fs) ++ '\x7d' :: rest) := by
        simp [Json.renderL]
      have hfields : Json.fieldsL ((k, v) :: fs) ++ '\x7d' :: rest
          = '"' :: ((escBody k.data ++ '"' :: ':' :: (Json.renderL v ++ fieldsSep fs))
              ++ '\x7d' :: rest) := by
        rw [fieldsL_cons]
        simp [List.append_assoc]
      rw [harg, jVal.eq_def]
      simp only [chomp_cons (show wsCh '\x7b' = false from rfl)]
      rw [hfields]
      simp only [chomp_cons (show wsCh '"' = false from rfl)]
      rw [if_neg (show ¬('"' : Char) = '\x7d' from by decide), ← hfields, key]
      simp
  termination_by v fuel rest hf hr => sizeOf v

/-- One-or-more array items round-trip. -/
theorem jItems_render : ∀ (x : Json) (xs : List Json) (fuel : Nat) (rest : List Char),
    (Json.itemsL (x :: xs)).length + 1 < fuel →
    jItems fuel (Json.itemsL (x :: xs) ++ ']' :: rest) = some (x :: xs, rest)
  | x, [], fuel, rest, hf => by
    cases fuel with
    | zero => omega
    | succ f =>
      have hx : (Json.renderL x).length < f := by
        simp only [Json.itemsL] at hf
        omega
      have hv := jVal_render x f (']' :: rest) hx rfl
      rw [jItems_step]
      simp only [Json.itemsL, hv, Option.some_bind]
      simp only [chomp_cons (show wsCh ']' = false from rfl)]
  | x, y :: ys, fuel, rest, hf => by
    cases fuel with
    | zero => omega
    | succ f =>
      have hflat : Json.itemsL (x :: y :: ys) ++ ']' :: rest
          = Json.renderL x ++ (',' :: (Json.itemsL (y :: ys) ++ ']' :: rest)) := by
        rw [show Json.itemsL (x :: y :: ys)
            = Json.renderL x ++ ',' :: Json.itemsL (y :: ys) from rfl]
        simp [List.append_assoc]
      have hlen0 : (Json.itemsL (x :: y :: ys)).length
          = (Json.renderL x).length + 1 + (Json.itemsL (y :: ys)).length := by
        rw [show Json.itemsL (x :: y :: ys)
            = Json.renderL x ++ ',' :: Json.itemsL (y :: ys) from rfl]
        simp
        omega
      have hx : (Json.renderL x).length < f := by omega
      have hys : (Json.itemsL (y :: ys)).length + 1 < f := by omega
      have hv := jVal_render x f (',' :: (Json.itemsL (y :: ys) ++ ']' :: rest)) hx rfl
      have key := jItems_render y ys f rest hys
      obtain ⟨c0, t0, he0, hw0, -, -⟩ := renderL_head y
      have hitems : Json.itemsL (y :: ys) ++ ']' :: rest
          = c0 :: ((t0 ++ itemsSep ys) ++ ']' :: rest) := by
        rw [itemsL_cons, he0]
        simp [List.append_assoc]
      rw [jItems_step, hflat, hv, Option.some_bind,
        chomp_cons (show wsCh ',' = false from rfl)]
      rw [hitems]
      simp only [chomp_cons hw0]
      rw [← hitems, key]
      rfl
  termination_by x xs fuel rest hf => sizeOf x + sizeOf xs + 1

/-- One-or-more object members round-trip. -/
theorem jFields_render : ∀ (k : String) (v : Json) (fs : List (String × Json))
    (fuel : Nat) (rest : List Char),
    (Json.fieldsL ((k, v) :: fs)).length + 1 < fuel →
    jFields fuel (Json.fieldsL ((k, v) :: fs) ++ '\x7d' :: rest) = some ((k, v) :: fs, rest)
  | k, v, [], fuel, rest, hf => by
    cases fuel with
    | zero => omega
    | succ f =>
      have hvlen : (Json.renderL v).length < f := by
        simp only [Json.fieldsL, List.length_cons, List.length_append] at hf
        omega
      have hv := jVal_render v f ('\x7d' :: rest) hvlen rfl
      have harg : Json.fieldsL ((k, v) :: []) ++ '\x7d' :: rest
          = '"' :: (escBody k.data ++ '"' :: ':' :: (Json.renderL v ++ '\x7d' :: rest)) := by
        simp [Json.fieldsL, List.append_assoc]
      rw [jFields_step, harg]
      simp only [chomp_cons (show wsCh '"' = false from rfl)]
      simp only [strBody_escBody]
      simp only [chomp_cons (show wsCh ':' = false from rfl)]
      rw [chomp_renderL, hv, Option.some_bind]
      simp only [chomp_cons (show wsCh '\x7d' = false from rfl)]
  | k, v, (k2, v2) :: fs, fuel, rest, hf => by
    cases fuel with
    | zero => omega
    | succ f =>
      have hlen0 : (Json.fieldsL ((k, v) :: (k2, v2) :: fs)).length
          = (escBody k.data).length + 4 + (Json.renderL v).length
            + (Json.fieldsL ((k2, v2) :: fs)).length := by
        rw [show Json.fieldsL ((k, v) :: (k2, v2) :: fs)
            = '"' :: (escBody k.data ++ '"' :: ':' :: (Json.renderL v
                ++ ',' :: Json.fieldsL ((k2, v2) :: fs))) from rfl]
        simp
        omega
      have hvlen : (Json.renderL v).length < f := by omega
      have hrest : (Json.fieldsL ((k2, v2) :: fs)).length + 1 < f := by omega
      have hv := jVal_render v f
        (',' :: (Json.fieldsL ((k2, v2) :: fs) ++ '\x7d' :: rest)) hvlen rfl
      have key := jFields_render k2 v2 fs f rest hrest
      have harg : Json.fieldsL ((k, v) :: (k2, v2) :: fs) ++ '\x7d' :: rest
          = '"' :: (escBody k.data ++ '"' :: ':' :: (Json.renderL v
              ++ (',' :: (Json.fieldsL ((k2, v2) :: fs) ++ '\x7d' :: rest)))) := by
        rw [show Json.fieldsL ((k, v) :: (k2, v2) :: fs)
            = '"' :: (escBody k.data ++ '"' :: ':' :: (Json.renderL v
                ++ ',' :: Json.fieldsL ((k2, v2) :: fs))) from rfl]
        simp [List.append_assoc]
      have htail : Json.fieldsL ((k2, v2) :: fs) ++ '\x7d' :: rest
          = '"' :: ((escBody k2.data ++ '"' :: ':' :: (Json.renderL v2 ++ fieldsSep fs))
              ++ '\x7d' :: rest) := by
        rw [fieldsL_cons]
        simp [List.append_assoc]
      rw [jFields_step, harg]
      simp only [chomp_cons (show wsCh '"' = false from rfl)]
      simp only [strBody_escBody]
      simp only [chomp_cons (show wsCh ':' = false from rfl)]
      rw [chomp_renderL, hv, Option.some_bind]
      simp only [chomp_cons (show wsCh ',' = false from rfl)]
      rw [htail]
      simp only [chomp_cons (show wsCh '"' = false from rfl)]
      rw [← htail, key]
      rfl
  termination_by k v fs fuel rest hf => sizeOf v + sizeOf fs + 1

end

/-- `JSON.parse ∘ JSON.stringify` is the identity on values (character-list
level). -/
theorem jsonParseL_render (v : Json) : jsonParseL (Json.renderL v) = some v := by
  have h := jVal_render v ((Json.renderL v).length + 1) [] (by omega) rfl
  rw [List.append_nil] at h
  simp [jsonParseL, h, chomp]

/-- `JSON.parse ∘ JSON.stringify` is the identity on values. -/
theorem jsonParse_render (v : Json) : jsonParse (Json.render v) = some v :=
  jsonParseL_render v

/-- The greedy brace regex matches a whole `{...}` slice exactly. -/
theorem braceSlice_wrap (mid : List Char) :
    braceSlice ('\x7b' :: (mid ++ ['\x7d'])) = some ('\x7b' :: (mid ++ ['\x7d'])) := by
  simp [braceSlice, List.dropWhile_cons, List.reverse_append]

/-- The brace regex matches a rendered object whole. -/
theorem braceMatch_obj (fs : List (String × Json)) :
    braceMatch (Json.render (.obj fs)) = some (Json.render (.obj fs)) := by
  have hd : (Json.render (.obj fs)).data = '\x7b' :: (Json.fieldsL fs ++ ['\x7d']) := rfl
  simp only [braceMatch, hd, braceSlice_wrap, Option.map_some]
  rfl

/-- C9: the normalizer is idempotent on its own degraded output — feeding the
JSON serialization of either degraded record back through
`parseGeminiResponse` returns exactly that record (the brace regex matches
the serialization whole and the parse round-trips). -/
theorem parseGemini_idem (t : String)
    (h : parseGeminiResponse t = noJsonRecord t ∨ parseGeminiResponse t = unparseableRecord) :
    parseGeminiResponse (Json.render (parseGeminiResponse t)) = parseGeminiResponse t := by
  have hobj : ∃ fs, parseGeminiResponse t = Json.obj fs := by
    rcases h with h | h <;> rw [h] <;> exact ⟨_, rfl⟩
  obtain ⟨fs, hfs⟩ := hobj
  rw [hfs]
  exact parseGemini_goodBlock _ _ _ (braceMatch_obj fs) (jsonParse_render (.obj fs))

/-- Witness for C9 at a concrete prose text (degraded confidence-60 record)
and at a concrete failing block (degraded confidence-30 record). -/
theorem parseGemini_idem_witness :
    parseGeminiResponse (Json.render (parseGeminiResponse "plain model prose"))
      = parseGeminiResponse "plain model prose"
    ∧ parseGeminiResponse (Json.render (parseGeminiResponse "\x7boops\x7d"))
      = parseGeminiResponse "\x7boops\x7d" :=
  ⟨parseGemini_idem _ (Or.inl (parseGemini_noBlock _ (by decide))),
   parseGemini_idem _ (Or.inr (parseGemini_badBlock _ "\x7boops\x7d" (by decide) (by decide)))⟩

/-! ## The File ↔ AiInsight status machine

`runRoute_shapes` / `runPipe_shapes` enumerate the finitely many
(state, trace) outcomes of one request or one background job; the safety
lemmas then only have to check each concrete shape. -/

theorem noBack_right {a b : PStatus} (h : b ≠ .processing) : noBack a b :=
  fun hc => h hc.2

theorem noBack_left {a b : PStatus} (h : a ≠ .completed) : noBack a b :=
  fun hc => h hc.1

theorem statusOf_setStatus {s : Store} {f : FileRec} (h : s.file = some f) (st : PStatus) :
    statusOf (setStatus s st) = some st := by
  simp [statusOf, setStatus, h]

theorem statusOf_saveInsight (s : Store) : statusOf (saveInsight s).1 = statusOf s := rfl

theorem saveInsight_file (s : Store) : (saveInsight s).1.file = s.file := rfl

theorem statusOf_linkInsight {s : Store} {f : FileRec} (h : s.file = some f) (id : Nat) :
    statusOf (linkInsight s id) = some PStatus.completed := by
  simp [statusOf, linkInsight, h]

theorem setStatus_file_some {s : Store} {f : FileRec} (h : s.file = some f) (st : PStatus) :
    (setStatus s st).file = some { f with status := st } := by
  simp [setStatus, h]

theorem linkInsight_file_some {s : Store} {f : FileRec} (h : s.file = some f) (id : Nat) :
    (linkInsight s id).file
      = some { f with aiInsight := some id, isProcessed := true, status := .completed } := by
  simp [linkInsight, h]

theorem completedLinked_of_ne (s : Store)
    (h : ∀ f, s.file = some f → f.status ≠ .completed) : completedLinked s :=
  fun f hf hc => absurd hc (h f hf)

theorem completedLinked_setStatus (s : Store) (st : PStatus) (hst : st ≠ .completed) :
    completedLinked (setStatus s st) := by
  refine completedLinked_of_ne _ fun f hf => ?_
  cases hsf : s.file with
  | none => simp [setStatus, hsf] at hf
  | some f0 =>
    rw [setStatus_file_some hsf] at hf
    cases hf
    simpa using hst

theorem completedLinked_link (s : Store) (id : Nat) : completedLinked (linkInsight s id) := by
  intro f hf hc
  cases hsf : s.file with
  | none => simp [linkInsight, hsf] at hf
  | some f0 =>
    rw [linkInsight_file_some hsf] at hf
    cases hf
    exact ⟨rfl, rfl⟩

/-- Symbolic execution of `POST /api/ai/analyze-file/:fileId`: the store and
trace land in one of eight shapes. -/
theorem runRoute_shapes (s : Store) (g : RouteSched) :
    (runRoute s g).1 = (s, [])
    ∨ (∃ f, s.file = some f
        ∧ ((f.isProcessed && f.aiInsight.isSome) = false ∨ g.findOk = false)
        ∧ (runRoute s g).1 = (setStatus s .failed, [setStatus s .failed]))
    ∨ (∃ f, s.file = some f ∧ (f.isProcessed && f.aiInsight.isSome) = false
        ∧ ((runRoute s g).1 = (setStatus s .processing, [setStatus s .processing])
          ∨ (runRoute s g).1 = (setStatus (setStatus s .processing) .failed,
              [setStatus s .processing, setStatus (setStatus s .processing) .failed])
          ∨ (runRoute s g).1 = ((saveInsight (setStatus s .processing)).1,
              [setStatus s .processing, (saveInsight (setStatus s .processing)).1])
          ∨ (runRoute s g).1 = (setStatus (saveInsight (setStatus s .processing)).1 .failed,
              [setStatus s .processing, (saveInsight (setStatus s .processing)).1,
               setStatus (saveInsight (setStatus s .processing)).1 .failed])
          ∨ (runRoute s g).1 = (linkInsight (saveInsight (setStatus s .processing)).1
                (saveInsight (setStatus s .processing)).2,
              [setStatus s .processing, (saveInsight (setStatus s .processing)).1,
               linkInsight (saveInsight (setStatus s .processing)).1
                 (saveInsight (setStatus s .processing)).2]))) := by
  rcases hsf : s.file with - | f
  · cases hfo : g.findOk <;> cases hfl : g.failOk <;>
      simp [runRoute, failTail, hsf, hfo, hfl]
  · cases hfo : g.findOk
    · cases hfl : g.failOk
      · simp [runRoute, failTail, hsf, hfo, hfl]
      · refine Or.inr (Or.inl ⟨f, rfl, Or.inr rfl, ?_⟩)
        simp [runRoute, failTail, hsf, hfo, hfl]
    · by_cases hg : (f.isProcessed && f.aiInsight.isSome) = false
      · cases hsp : g.setProcessingOk
        · cases hfl : g.failOk
          · simp [runRoute, failTail, hsf, hfo, hg, hsp, hfl]
          · refine Or.inr (Or.inl ⟨f, rfl, Or.inl hg, ?_⟩)
            simp [runRoute, failTail, hsf, hfo, hg, hsp, hfl]
        · cases hsv : g.saveOk
          · cases hfl : g.failOk
            · refine Or.inr (Or.inr ⟨f, rfl, hg, Or.inl ?_⟩)
              simp [runRoute, failTail, setStatus, hsf, hfo, hg, hsp, hsv, hfl]
            · refine Or.inr (Or.inr ⟨f, rfl, hg, Or.inr (Or.inl ?_)⟩)
              simp [runRoute, failTail, setStatus, hsf, hfo, hg, hsp, hsv, hfl]
          · cases hco : g.completeOk
            · cases hfl : g.failOk
              · refine Or.inr (Or.inr ⟨f, rfl, hg, Or.inr (Or.inr (Or.inl ?_))⟩)
                simp [runRoute, failTail, setStatus, saveInsight, hsf, hfo, hg, hsp, hsv,
                  hco, hfl]
              · refine Or.inr (Or.inr ⟨f, rfl, hg, Or.inr (Or.inr (Or.inr (Or.inl ?_)))⟩)
                simp [runRoute, failTail, setStatus, saveInsight, hsf, hfo, hg, hsp, hsv,
                  hco, hfl]
            · refine Or.inr (Or.inr ⟨f, rfl, hg, Or.inr (Or.inr (Or.inr (Or.inr ?_)))⟩)
              simp [runRoute, failTail, setStatus, saveInsight, linkInsight, hsf, hfo, hg,
                hsp, hsv, hco]
      · rw [Bool.not_eq_false] at hg
        simp [runRoute, hsf, hfo, hg]

/-- Symbolic execution of `processAIInsight` from a store holding the file:
seven possible (state, trace) shapes. -/
theorem runPipe_shapes (s : Store) (g : PipeSched) (f : FileRec) (hsf : s.file = some f) :
    (runPipe s g).1 = s ∧ (runPipe s g).2 = []
    ∨ (runPipe s g).1 = setStatus s .failed ∧ (runPipe s g).2 = [setStatus s .failed]
    ∨ (runPipe s g).1 = setStatus s .processing
        ∧ (runPipe s g).2 = [setStatus s .processing]
    ∨ (runPipe s g).1 = setStatus (setStatus s .processing) .failed
        ∧ (runPipe s g).2 = [setStatus s .processing, setStatus (setStatus s .processing) .failed]
    ∨ (runPipe s g).1 = (saveInsight (setStatus s .processing)).1
        ∧ (runPipe s g).2 = [setStatus s .processing, (saveInsight (setStatus s .processing)).1]
    ∨ (runPipe s g).1 = setStatus (saveInsight (setStatus s .processing)).1 .failed
        ∧ (runPipe s g).2 = [setStatus s .processing, (saveInsight (setStatus s .processing)).1,
            setStatus (saveInsight (setStatus s .processing)).1 .failed]
    ∨ (runPipe s g).1 = linkInsight (saveInsight (setStatus s .processing)).1
          (saveInsight (setStatus s .processing)).2
        ∧ (runPipe s g).2 = [setStatus s .processing, (saveInsight (setStatus s .processing)).1,
            linkInsight (saveInsight (setStatus s .processing)).1
              (saveInsight (setStatus s .processing)).2] := by
  have hs1 : (setStatus s .processing).file = some { f with status := .processing } :=
    setStatus_file_some hsf _
  cases hsp : g.setProcessingOk
  · cases hfl : g.failOk
    · simp [runPipe, failTail, hsf, hsp, hfl]
    · simp [runPipe, failTail, hsf, hsp, hfl]
  · cases hfo : g.findOk
    · cases hfl : g.failOk
      · simp [runPipe, failTail, hs1, hsp, hfo, hfl]
      · simp [runPipe, failTail, hs1, hsp, hfo, hfl]
    · by_cases hval : (g.saveOk && validInsight (buildInsight
        (analyzeMedicalReport g.fileData g.fileType g.reportType g.modelReply 0).data
        (match g.fileData with
          | .buffer _ => "Image file: report"
          | .text str => str)
        (analyzeMedicalReport g.fileData g.fileType g.reportType g.modelReply 0).processingTime))
        = false
      · cases hfl : g.failOk
        · simp [runPipe, failTail, hs1, hsp, hfo, hval, hfl]
        · simp [runPipe, failTail, hs1, hsp, hfo, hval, hfl]
      · rw [Bool.not_eq_false] at hval
        cases hco : g.completeOk
        · cases hfl : g.failOk
          · simp [runPipe, failTail, saveInsight, hs1, hsp, hfo, hval, hco, hfl]
          · simp [runPipe, failTail, saveInsight, hs1, hsp, hfo, hval, hco, hfl]
        · simp [runPipe, failTail, saveInsight, hs1, hsp, hfo, hval, hco]

theorem procInv_mk (f : FileRec) (hip : f.isProcessed = false) (st : PStatus)
    (hst : st ≠ .completed) : procInv { f with status := st } := by
  simp [procInv, hip, hst]

theorem procInv_link (id : Nat) :
    procInv { isProcessed := true, status := .completed, aiInsight := some id } := by
  simp [procInv]

theorem procInv_guard {f : FileRec} (hp : procInv f)
    (hg : (f.isProcessed && f.aiInsight.isSome) = false) : f.isProcessed = false := by
  cases hq : f.isProcessed
  · rfl
  · rcases hp.1 hq with ⟨-, hn⟩
    obtain ⟨id, hid⟩ := Option.ne_none_iff_exists'.mp hn
    simp [hq, hid] at hg

theorem guard_ne_completed {s : Store} {f : FileRec} (hI : completedLinked s)
    (hsf : s.file = some f) (hg : (f.isProcessed && f.aiInsight.isSome) = false) :
    f.status ≠ PStatus.completed := by
  intro hc
  rcases hI f hsf hc with ⟨h1, h2⟩
  rw [h1, h2] at hg
  cases hg

/-- One manual-analysis request, from any store a completed file of which is
marked and linked: the property stays true, the observed statuses never step
completed → processing, and the last observation is the final status. -/
theorem runRoute_chain (s : Store) (g : RouteSched) (hI : completedLinked s) :
    completedLinked ((runRoute s g).1).1
    ∧ List.Chain' noBack ((s :: ((runRoute s g).1).2).filterMap statusOf)
    ∧ ((s :: ((runRoute s g).1).2).filterMap statusOf).getLast?
        = statusOf ((runRoute s g).1).1 := by
  rcases runRoute_shapes s g with h | ⟨f, hsf, -, h⟩ | ⟨f, hsf, hg, h⟩
  · rw [h]
    refine ⟨hI, ?_, ?_⟩ <;> cases hst : statusOf s <;> simp [hst]
  · rw [h]
    have e0 : statusOf s = some f.status := by simp [statusOf, hsf]
    have e1 : statusOf (setStatus s .failed) = some PStatus.failed := statusOf_setStatus hsf _
    refine ⟨completedLinked_setStatus s _ (by simp), ?_, ?_⟩ <;> simp [e0, e1, noBack]
  · have hnc := guard_ne_completed hI hsf hg
    have e0 : statusOf s = some f.status := by simp [statusOf, hsf]
    have h1f : (setStatus s .processing).file = some { f with status := .processing } :=
      setStatus_file_some hsf _
    have e1 : statusOf (setStatus s .processing) = some PStatus.processing :=
      statusOf_setStatus hsf _
    have h2f : (saveInsight (setStatus s .processing)).1.file
        = some { f with status := .processing } := by rw [saveInsight_file]; exact h1f
    have e2 : statusOf (saveInsight (setStatus s .processing)).1 = some PStatus.processing := by
      rw [statusOf_saveInsight]; exact e1
    rcases h with h | h | h | h | h
    · rw [h]
      exact ⟨completedLinked_setStatus s _ (by simp),
        by simpa [e0, e1] using noBack_left hnc, by simp [e0, e1]⟩
    · rw [h]
      have e3 : statusOf (setStatus (setStatus s .processing) .failed) = some PStatus.failed :=
        statusOf_setStatus h1f _
      refine ⟨completedLinked_setStatus _ _ (by simp), ?_, by simp [e0, e1, e3]⟩
      simp [e0, e1, e3]
      exact ⟨noBack_left hnc, noBack_left (by simp)⟩
    · rw [h]
      refine ⟨?_, ?_, by simp [e0, e1, e2]⟩
      · refine completedLinked_of_ne _ fun f' hf' => ?_
        rw [h2f] at hf'
        cases hf'
        simp
      · simp [e0, e1, e2]
        exact ⟨noBack_left hnc, noBack_left (by simp)⟩
    · rw [h]
      have e3 : statusOf (setStatus (saveInsight (setStatus s .processing)).1 .failed)
          = some PStatus.failed := statusOf_setStatus h2f _
      refine ⟨completedLinked_setStatus _ _ (by simp), ?_, by simp [e0, e1, e2, e3]⟩
      simp [e0, e1, e2, e3]
      exact ⟨noBack_left hnc, noBack_left (by simp), noBack_left (by simp)⟩
    · rw [h]
      have e3 : statusOf (linkInsight (saveInsight (setStatus s .processing)).1
          (saveInsight (setStatus s .processing)).2) = some PStatus.completed :=
        statusOf_linkInsight h2f _
      refine ⟨completedLinked_link _ _, ?_, by simp [e0, e1, e2, e3]⟩
      simp [e0, e1, e2, e3]
      exact ⟨noBack_left hnc, noBack_left (by simp), noBack_left (by simp)⟩

/-- One manual-analysis request whose `File.findOne` succeeds preserves the
`fileSchema` invariant at every emitted write and in the final store. -/
theorem runRoute_inv (s : Store) (g : RouteSched)
    (hs : ∀ f0, s.file = some f0 → procInv f0) (hfo : g.findOk = true) :
    (∀ st ∈ ((runRoute s g).1).2, ∀ f0, st.file = some f0 → procInv f0)
    ∧ (∀ f0, ((runRoute s g).1).1.file = some f0 → procInv f0) := by
  rcases runRoute_shapes s g with h | ⟨f, hsf, hcond, h⟩ | ⟨f, hsf, hg, h⟩
  · rw [h]
    exact ⟨by simp, hs⟩
  · rcases hcond with hg | hff
    · have hip : f.isProcessed = false := procInv_guard (hs f hsf) hg
      rw [h]
      have hone : ∀ f0, (setStatus s .failed).file = some f0 → procInv f0 := by
        intro f0 hf0
        rw [setStatus_file_some hsf] at hf0
        cases hf0
        exact procInv_mk f hip _ (by simp)
      refine ⟨?_, hone⟩
      intro st hst
      simp at hst
      subst hst
      exact hone
    · rw [hfo] at hff
      cases hff
  · have hip : f.isProcessed = false := procInv_guard (hs f hsf) hg
    have h1f : (setStatus s .processing).file = some { f with status := .processing } :=
      setStatus_file_some hsf _
    have h2f : (saveInsight (setStatus s .processing)).1.file
        = some { f with status := .processing } := by rw [saveInsight_file]; exact h1f
    have hp1 : ∀ f0, (setStatus s .processing).file = some f0 → procInv f0 := by
      intro f0 hf0
      rw [h1f] at hf0
      cases hf0
      exact procInv_mk f hip _ (by simp)
    have hp2 : ∀ f0, (saveInsight (setStatus s .processing)).1.file = some f0 → procInv f0 := by
      intro f0 hf0
      rw [h2f] at hf0
      cases hf0
      exact procInv_mk f hip _ (by simp)
    have hpf : ∀ f0, (setStatus (setStatus s .processing) .failed).file = some f0 → procInv f0 := by
      intro f0 hf0
      rw [setStatus_file_some h1f] at hf0
      cases hf0
      exact procInv_mk { f with status := PStatus.processing } hip _ (by simp)
    have hpf2 : ∀ f0,
        (setStatus (saveInsight (setStatus s .processing)).1 .failed).file = some f0
        → procInv f0 := by
      intro f0 hf0
      rw [setStatus_file_some h2f] at hf0
      cases hf0
      exact procInv_mk { f with status := PStatus.processing } hip _ (by simp)
    have hpl : ∀ f0,
        (linkInsight (saveInsight (setStatus s .processing)).1
          (saveInsight (setStatus s .processing)).2).file = some f0 → procInv f0 := by
      intro f0 hf0
      rw [linkInsight_file_some h2f] at hf0
      cases hf0
      exact procInv_link _
    rcases h with h | h | h | h | h
    · rw [h]
      refine ⟨fun st hst => ?_, hp1⟩
      simp at hst
      subst hst
      exact hp1
    · rw [h]
      refine ⟨fun st hst => ?_, hpf⟩
      simp at hst
      rcases hst with hst | hst <;> subst hst
      · exact hp1
      · exact hpf
    · rw [h]
      refine ⟨fun st hst => ?_, hp2⟩
      simp at hst
      rcases hst with hst | hst <;> subst hst
      · exact hp1
      · exact hp2
    · rw [h]
      refine ⟨fun st hst => ?_, hpf2⟩
      simp at hst
      rcases hst with hst | hst | hst <;> subst hst
      · exact hp1
      · exact hp2
      · exact hpf2
    · rw [h]
      refine ⟨fun st hst => ?_, hpl⟩
      simp at hst
      rcases hst with hst | hst | hst <;> subst hst
      · exact hp1
      · exact hp2
      · exact hpl

/-- One background `processAIInsight` run on a not-yet-completed file: a
completed final file is marked and linked, statuses never step
completed → processing, and the last observation is the final status. -/
theorem runPipe_chain (s : Store) (g : PipeSched) (f : FileRec) (hsf : s.file = some f)
    (hnc : f.status ≠ .completed) :
    completedLinked (runPipe s g).1
    ∧ List.Chain' noBack ((s :: (runPipe s g).2).filterMap statusOf)
    ∧ ((s :: (runPipe s g).2).filterMap statusOf).getLast? = statusOf (runPipe s g).1 := by
  have hCL : completedLinked s := by
    refine completedLinked_of_ne _ fun f' hf' => ?_
    rw [hsf] at hf'
    cases hf'
    exact hnc
  have e0 : statusOf s = some f.status := by simp [statusOf, hsf]
  have h1f : (setStatus s .processing).file = some { f with status := .processing } :=
    setStatus_file_some hsf _
  have e1 : statusOf (setStatus s .processing) = some PStatus.processing :=
    statusOf_setStatus hsf _
  have h2f : (saveInsight (setStatus s .processing)).1.file
      = some { f with status := .processing } := by rw [saveInsight_file]; exact h1f
  have e2 : statusOf (saveInsight (setStatus s .processing)).1 = some PStatus.processing := by
    rw [statusOf_saveInsight]; exact e1
  rcases runPipe_shapes s g f hsf with ⟨h1, h2⟩ | ⟨h1, h2⟩ | ⟨h1, h2⟩ | ⟨h1, h2⟩
    | ⟨h1, h2⟩ | ⟨h1, h2⟩ | ⟨h1, h2⟩ <;> rw [h1, h2]
  · exact ⟨hCL, by simp [e0], by simp [e0]⟩
  · have e1' : statusOf (setStatus s .failed) = some PStatus.failed := statusOf_setStatus hsf _
    exact ⟨completedLinked_setStatus s _ (by simp),
      by simpa [e0, e1'] using noBack_left hnc, by simp [e0, e1']⟩
  · exact ⟨completedLinked_setStatus s _ (by simp),
      by simpa [e0, e1] using noBack_left hnc, by simp [e0, e1]⟩
  · have e3 : statusOf (setStatus (setStatus s .processing) .failed) = some PStatus.failed :=
      statusOf_setStatus h1f _
    refine ⟨completedLinked_setStatus _ _ (by simp), ?_, by simp [e0, e1, e3]⟩
    simp [e0, e1, e3]
    exact ⟨noBack_left hnc, noBack_left (by simp)⟩
  · refine ⟨?_, ?_, by simp [e0, e1, e2]⟩
    · refine completedLinked_of_ne _ fun f' hf' => ?_
      rw [h2f] at hf'
      cases hf'
      simp
    · simp [e0, e1, e2]
      exact ⟨noBack_left hnc, noBack_left (by simp)⟩
  · have e3 : statusOf (setStatus (saveInsight (setStatus s .processing)).1 .failed)
        = some PStatus.failed := statusOf_setStatus h2f _
    refine ⟨completedLinked_setStatus _ _ (by simp), ?_, by simp [e0, e1, e2, e3]⟩
    simp [e0, e1, e2, e3]
    exact ⟨noBack_left hnc, noBack_left (by simp), noBack_left (by simp)⟩
  · have e3 : statusOf (linkInsight (saveInsight (setStatus s .processing)).1
        (saveInsight (setStatus s .processing)).2) = some PStatus.completed :=
      statusOf_linkInsight h2f _
    refine ⟨completedLinked_link _ _, ?_, by simp [e0, e1, e2, e3]⟩
    simp [e0, e1, e2, e3]
    exact ⟨noBack_left hnc, noBack_left (by simp), noBack_left (by simp)⟩

/-- One background run on an unprocessed, not-yet-completed file preserves
the `fileSchema` invariant at every emitted write and in the final store. -/
theorem runPipe_inv (s : Store) (g : PipeSched) (f : FileRec) (hsf : s.file = some f)
    (hip : f.isProcessed = false) (hnc : f.status ≠ .completed) :
    (∀ st ∈ (runPipe s g).2, ∀ f0, st.file = some f0 → procInv f0)
    ∧ (∀ f0, (runPipe s g).1.file = some f0 → procInv f0) := by
  have hp0 : ∀ f0, s.file = some f0 → procInv f0 := by
    intro f0 hf0
    rw [hsf] at hf0
    cases hf0
    simp [procInv, hip, hnc]
  have h1f : (setStatus s .processing).file = some { f with status := .processing } :=
    setStatus_file_some hsf _
  have h2f : (saveInsight (setStatus s .processing)).1.file
      = some { f with status := .processing } := by rw [saveInsight_file]; exact h1f
  have hpF : ∀ f0, (setStatus s .failed).file = some f0 → procInv f0 := by
    intro f0 hf0
    rw [setStatus_file_some hsf] at hf0
    cases hf0
    exact procInv_mk f hip _ (by simp)
  have hp1 : ∀ f0, (setStatus s .processing).file = some f0 → procInv f0 := by
    intro f0 hf0
    rw [h1f] at hf0
    cases hf0
    exact procInv_mk f hip _ (by simp)
  have hp2 : ∀ f0, (saveInsight (setStatus s .processing)).1.file = some f0 → procInv f0 := by
    intro f0 hf0
    rw [h2f] at hf0
    cases hf0
    exact procInv_mk f hip _ (by simp)
  have hpf : ∀ f0, (setStatus (setStatus s .processing) .failed).file = some f0 → procInv f0 := by
    intro f0 hf0
    rw [setStatus_file_some h1f] at hf0
    cases hf0
    exact procInv_mk { f with status := PStatus.processing } hip _ (by simp)
  have hpf2 : ∀ f0,
      (setStatus (saveInsight (setStatus s .processing)).1 .failed).file = some f0
      → procInv f0 := by
    intro f0 hf0
    rw [setStatus_file_some h2f] at hf0
    cases hf0
    exact procInv_mk { f with status := PStatus.processing } hip _ (by simp)
  have hpl : ∀ f0,
      (linkInsight (saveInsight (setStatus s .processing)).1
        (saveInsight (setStatus s .processing)).2).file = some f0 → procInv f0 := by
    intro f0 hf0
    rw [linkInsight_file_some h2f] at hf0
    cases hf0
    exact procInv_link _
  rcases runPipe_shapes s g f hsf with ⟨h1, h2⟩ | ⟨h1, h2⟩ | ⟨h1, h2⟩ | ⟨h1, h2⟩
    | ⟨h1, h2⟩ | ⟨h1, h2⟩ | ⟨h1, h2⟩ <;> rw [h1, h2]
  · exact ⟨by simp, hp0⟩
  · refine ⟨fun st hst => ?_, hpF⟩
    simp at hst
    subst hst
    exact hpF
  · refine ⟨fun st hst => ?_, hp1⟩
    simp at hst
    subst hst
    exact hp1
  · refine ⟨fun st hst => ?_, hpf⟩
    simp at hst
    rcases hst with hst | hst <;> subst hst
    · exact hp1
    · exact hpf
  · refine ⟨fun st hst => ?_, hp2⟩
    simp at hst
    rcases hst with hst | hst <;> subst hst
    · exact hp1
    · exact hp2
  · refine ⟨fun st hst => ?_, hpf2⟩
    simp at hst
    rcases hst with hst | hst | hst <;> subst hst
    · exact hp1
    · exact hp2
    · exact hpf2
  · refine ⟨fun st hst => ?_, hpl⟩
    simp at hst
    rcases hst with hst | hst | hst <;> subst hst
    · exact hp1
    · exact hp2
    · exact hpl

/-- One event from a store whose completed file is marked and linked: the
property is preserved, no observed status step leaves completed for
processing, and the last observation is the final status. -/
theorem stepEv_chain (s : Store) (e : Ev) (hI : completedLinked s) :
    completedLinked (stepEv s e).1
    ∧ List.Chain' noBack ((s :: (stepEv s e).2).filterMap statusOf)
    ∧ ((s :: (stepEv s e).2).filterMap statusOf).getLast? = statusOf (stepEv s e).1 := by
  cases e with
  | analyze g => exact runRoute_chain s g hI
  | upload ok g =>
    cases hf : s.file with
    | some f0 =>
      have hs : stepEv s (.upload ok g) = (s, []) := by simp [stepEv, hf]
      rw [hs]
      refine ⟨hI, ?_, ?_⟩ <;> cases hst : statusOf s <;> simp [hst]
    | none =>
      cases ok with
      | false =>
        have hs : stepEv s (.upload false g) = (s, []) := by simp [stepEv, hf]
        rw [hs]
        refine ⟨hI, ?_, ?_⟩ <;> cases hst : statusOf s <;> simp [hst]
      | true =>
        have hs : stepEv s (.upload true g)
            = ((runPipe { s with file := some freshFile } g).1,
               { s with file := some freshFile }
                 :: (runPipe { s with file := some freshFile } g).2) := by
          simp [stepEv, hf]
        obtain ⟨p1, p2, p3⟩ :=
          runPipe_chain { s with file := some freshFile } g freshFile rfl (by simp [freshFile])
        rw [hs]
        have hnone : statusOf s = none := by simp [statusOf, hf]
        refine ⟨p1, ?_, ?_⟩
        · simpa [hnone] using p2
        · simpa [hnone] using p3

/-- One event whose route lookup succeeds preserves the `fileSchema`
invariant at every write and in the final store. -/
theorem stepEv_inv (s : Store) (e : Ev) (hs : ∀ f0, s.file = some f0 → procInv f0)
    (hL : lookupSafe e) :
    (∀ st ∈ (stepEv s e).2, ∀ f0, st.file = some f0 → procInv f0)
    ∧ (∀ f0, (stepEv s e).1.file = some f0 → procInv f0) := by
  cases e with
  | analyze g => exact runRoute_inv s g hs hL
  | upload ok g =>
    cases hf : s.file with
    | some f0 =>
      have he : stepEv s (.upload ok g) = (s, []) := by simp [stepEv, hf]
      rw [he]
      exact ⟨by simp, hs⟩
    | none =>
      cases ok with
      | false =>
        have he : stepEv s (.upload false g) = (s, []) := by simp [stepEv, hf]
        rw [he]
        exact ⟨by simp, hs⟩
      | true =>
        have he : stepEv s (.upload true g)
            = ((runPipe { s with file := some freshFile } g).1,
               { s with file := some freshFile }
                 :: (runPipe { s with file := some freshFile } g).2) := by
          simp [stepEv, hf]
        obtain ⟨p1, p2⟩ := runPipe_inv { s with file := some freshFile } g freshFile rfl
          (by simp [freshFile]) (by simp [freshFile])
        rw [he]
        refine ⟨fun st hst => ?_, p2⟩
        rcases List.mem_cons.mp hst with hst | hst
        · subst hst
          intro f1 hf1
          cases hf1
          simp [procInv, freshFile]
        · exact p1 st hst

theorem filterMap_statusOf_cons (a : Store) (l : List Store) :
    (a :: l).filterMap statusOf = (statusOf a).toList ++ l.filterMap statusOf := by
  cases hp : statusOf a <;> simp [List.filterMap_cons, hp]

theorem chain_glue {A B : List PStatus} {x : Option PStatus}
    (hA : List.Chain' noBack A) (hlast : A.getLast? = x)
    (hB : List.Chain' noBack (x.toList ++ B)) : List.Chain' noBack (A ++ B) := by
  cases x with
  | none =>
    refine hA.append (by simpa using hB) ?_
    intro a ha b hb
    rw [hlast] at ha
    simp at ha
  | some σ =>
    have h' := List.chain'_cons'.mp (by simpa using hB)
    refine hA.append h'.2 ?_
    intro a ha b hb
    rw [hlast] at ha
    have ha' : a = σ := by simpa [eq_comm] using ha
    subst ha'
    exact h'.1 b hb

theorem last_glue {A B : List PStatus} {x y : Option PStatus}
    (hlast : A.getLast? = x) (hB : (x.toList ++ B).getLast? = y) :
    (A ++ B).getLast? = y := by
  cases hb : B with
  | nil =>
    subst hb
    cases x with
    | none =>
      rw [List.append_nil, hlast]
      simpa using hB
    | some σ =>
      rw [List.append_nil, hlast]
      simpa using hB
  | cons b bs =>
    rw [List.getLast?_append_cons]
    rw [hb, List.getLast?_append_of_ne_nil _ (by simp)] at hB
    exact hB

/-- Any event history from a store whose completed file is marked and linked:
that property holds at the end, the full observed status sequence never steps
completed → processing, and its last entry is the final status. -/
theorem exec_chain (s : Store) (evs : List Ev) (hI : completedLinked s) :
    completedLinked (exec s evs).1
    ∧ List.Chain' noBack ((s :: (exec s evs).2).filterMap statusOf)
    ∧ ((s :: (exec s evs).2).filterMap statusOf).getLast? = statusOf (exec s evs).1 := by
  induction evs generalizing s with
  | nil =>
    refine ⟨hI, ?_, ?_⟩ <;> cases hst : statusOf s <;> simp [exec, hst]
  | cons e es ih =>
    obtain ⟨h1, h2, h3⟩ := stepEv_chain s e hI
    obtain ⟨g1, g2, g3⟩ := ih (stepEv s e).1 h1
    have hE : exec s (e :: es)
        = ((exec (stepEv s e).1 es).1, (stepEv s e).2 ++ (exec (stepEv s e).1 es).2) := by
      simp [exec]
    have hsplit : (s :: ((stepEv s e).2 ++ (exec (stepEv s e).1 es).2)).filterMap statusOf
        = ((s :: (stepEv s e).2).filterMap statusOf)
          ++ ((exec (stepEv s e).1 es).2.filterMap statusOf) := by
      rw [← List.cons_append, List.filterMap_append]
    have harg : ((stepEv s e).1 :: (exec (stepEv s e).1 es).2).filterMap statusOf
        = (statusOf (stepEv s e).1).toList
          ++ (exec (stepEv s e).1 es).2.filterMap statusOf :=
      filterMap_statusOf_cons _ _
    rw [hE]
    refine ⟨g1, ?_, ?_⟩
    · rw [hsplit]
      exact chain_glue h2 h3 (harg ▸ g2)
    · rw [hsplit]
      exact last_glue h3 (harg ▸ g3)

/-- Any event history whose manual-analysis lookups succeed preserves the
`fileSchema` invariant at every emitted write and in the final store. -/
theorem exec_inv (s : Store) (evs : List Ev) (hs : ∀ f0, s.file = some f0 → procInv f0)
    (hL : ∀ e ∈ evs, lookupSafe e) :
    (∀ st ∈ (exec s evs).2, ∀ f0, st.file = some f0 → procInv f0)
    ∧ (∀ f0, (exec s evs).1.file = some f0 → procInv f0) := by
  induction evs generalizing s with
  | nil => exact ⟨by simp [exec], by simpa [exec] using hs⟩
  | cons e es ih =>
    obtain ⟨h1, h2⟩ := stepEv_inv s e hs (hL e (by simp))
    obtain ⟨g1, g2⟩ := ih (stepEv s e).1 h2 fun e' he' => hL e' (by simp [he'])
    have hE : exec s (e :: es)
        = ((exec (stepEv s e).1 es).1, (stepEv s e).2 ++ (exec (stepEv s e).1 es).2) := by
      simp [exec]
    rw [hE]
    refine ⟨?_, g2⟩
    intro st hst
    rcases List.mem_append.mp hst with hst | hst
    · exact h1 st hst
    · exact g1 st hst

/-! ## C3 – C6: the Status Coordinator claims -/

set_option maxRecDepth 100000 in
/-- C4, counterexample: after an upload whose background `aiInsight.save()`
throws (file left `failed`), a manual re-analysis re-enters `processing` and
completes — the observed status sequence is not a prefix of
pending → processing → {completed | failed}. -/
theorem status_backslide_cex :
    statusTrace [.upload true pipeSaveFail, .analyze routeOk]
      = [.pending, .processing, .failed, .processing, .processing, .completed]
    ∧ ¬ List.Chain' forwardOnly
        (statusTrace [.upload true pipeSaveFail, .analyze routeOk]) := by
  have h : statusTrace [.upload true pipeSaveFail, .analyze routeOk]
      = [.pending, .processing, .failed, .processing, .processing, .completed] := by decide
  refine ⟨h, ?_⟩
  rw [h]
  simp [List.chain'_cons, forwardOnly]

/-- C4 (amended): a `completed` file never transitions back to `processing`
— over every serialized event history the observed statuses satisfy
`noBack` — and a re-analysis request for a processed-and-linked file whose
lookup succeeds is rejected with 400 "File already processed" without
mutating the store; but the claimed full pending → processing →
{completed | failed} prefix property fails, because a `failed` file may
re-enter `processing` (see the counterexample). -/
theorem status_machine_amended (evs : List Ev) :
    List.Chain' noBack (statusTrace evs)
    ∧ ∀ s f g, s.file = some f → f.isProcessed = true → f.aiInsight.isSome = true →
        g.findOk = true →
        runRoute s g = ((s, []), (400, "File already processed")) := by
  constructor
  · have h0 : completedLinked s0 := by intro f hf; simp [s0] at hf
    simpa [statusTrace] using (exec_chain s0 evs h0).2.1
  · intro s f g hsf hp hai hfo
    simp [runRoute, hfo, hsf, hp, hai]

set_option maxRecDepth 100000 in
theorem status_machine_amended_witness :
    List.Chain' noBack (statusTrace [.upload true pipeSaveFail, .analyze routeOk])
    ∧ ({ file := some { isProcessed := true, status := .completed, aiInsight := some 0 },
          insights := [0], nextId := 1 } : Store).file
        = some { isProcessed := true, status := .completed, aiInsight := some 0 }
    ∧ ({ isProcessed := true, status := .completed, aiInsight := some 0 } : FileRec).isProcessed
        = true
    ∧ ({ isProcessed := true, status := .completed, aiInsight := some 0 }
        : FileRec).aiInsight.isSome = true
    ∧ routeOk.findOk = true
    ∧ runRoute
        { file := some { isProcessed := true, status := .completed, aiInsight := some 0 },
          insights := [0], nextId := 1 } routeOk
        = (({ file := some { isProcessed := true, status := .completed, aiInsight := some 0 },
              insights := [0], nextId := 1 }, []), (400, "File already processed")) :=
  ⟨(status_machine_amended [.upload true pipeSaveFail, .analyze routeOk]).1,
   rfl, rfl, rfl, rfl,
   (status_machine_amended []).2 _ _ routeOk rfl rfl rfl rfl⟩

set_option maxRecDepth 100000 in
/-- C5, counterexample: after a fully successful upload pipeline, one manual
request whose `File.findOne` throws runs the catch clause and sets the
completed, linked, `isProcessed` file to `failed` — breaking the claimed
`isProcessed ↔ (completed ∧ linked)` invariant. -/
theorem procInv_broken_cex :
    (exec s0 [.upload true pipeOk, .analyze routeNoFind]).1.file
      = some { isProcessed := true, status := .failed, aiInsight := some 0 }
    ∧ ¬ procInv { isProcessed := true, status := .failed, aiInsight := some 0 } := by
  constructor
  · decide
  · simp [procInv]

/-- C5 (amended): the invariant holds of a freshly created file and is
preserved by the background pipeline and by every manual request whose
initial lookup succeeds; a request whose `File.findOne` throws can break it
(see the counterexample). -/
theorem procInv_amended (evs : List Ev) (hL : ∀ e ∈ evs, lookupSafe e) :
    procInv freshFile
    ∧ (∀ st ∈ (exec s0 evs).2, ∀ f, st.file = some f → procInv f)
    ∧ (∀ f, (exec s0 evs).1.file = some f → procInv f) := by
  have h0 : ∀ f, s0.file = some f → procInv f := by intro f hf; simp [s0] at hf
  obtain ⟨h1, h2⟩ := exec_inv s0 evs h0 hL
  exact ⟨by simp [procInv, freshFile], h1, h2⟩

set_option maxRecDepth 100000 in
theorem procInv_amended_witness :
    (∀ e ∈ [Ev.upload true pipeOk, Ev.analyze routeOk], lookupSafe e)
    ∧ (∀ f, (exec s0 [Ev.upload true pipeOk, Ev.analyze routeOk]).1.file = some f
        → procInv f) := by
  have hL : ∀ e ∈ [Ev.upload true pipeOk, Ev.analyze routeOk], lookupSafe e := by
    intro e he
    simp at he
    rcases he with rfl | rfl
    · trivial
    · rfl
  exact ⟨hL, (procInv_amended [Ev.upload true pipeOk, Ev.analyze routeOk] hL).2.2⟩

set_option maxRecDepth 100000 in
/-- C3, counterexample: when `aiInsight.save()` succeeds but the subsequent
`File.findByIdAndUpdate` link throws, the catch sets the file to `failed` and
the saved insight remains in the store, unreferenced — an orphan
`AiInsight`, contradicting the claimed atomicity. -/
theorem insight_orphan_cex :
    (exec s0 [.upload true pipeLinkFail]).1
      = { file := some { isProcessed := false, status := .failed, aiInsight := none },
          insights := [0], nextId := 1 }
    ∧ orphanIds (exec s0 [.upload true pipeLinkFail]).1 = [0]
    ∧ ¬ insightAtomic (exec s0 [.upload true pipeLinkFail]).1 := by
  have hS : (exec s0 [.upload true pipeLinkFail]).1
      = { file := some { isProcessed := false, status := .failed, aiInsight := none },
          insights := [0], nextId := 1 } := by decide
  refine ⟨hS, by rw [hS]; decide, ?_⟩
  rw [hS]
  rintro (⟨f, id, hf, hc, -, -⟩ | ⟨-, horph⟩)
  · simp at hf
    rw [← hf] at hc
    cases hc
  · exact absurd horph (by decide)

/-- C3 (amended): a pipeline run from a fresh upload ends in exactly one of
three ways — completed with the insight saved, linked and no orphan; failed
(or stopped) before any insight was saved; or failed after the save with the
insight orphaned in the store.  The claimed two-way atomicity omits the third
case. -/
theorem pipeline_atomicity_amended (g : PipeSched) :
    (∃ f id, (runPipe startSt g).1.file = some f ∧ f.status = .completed
        ∧ f.aiInsight = some id ∧ id ∈ (runPipe startSt g).1.insights
        ∧ orphanIds (runPipe startSt g).1 = [])
    ∨ ((runPipe startSt g).1.insights = []
        ∧ ∃ f, (runPipe startSt g).1.file = some f ∧ f.aiInsight = none
          ∧ f.status ≠ .completed)
    ∨ ((runPipe startSt g).1.insights = [0] ∧ orphanIds (runPipe startSt g).1 = [0]
        ∧ ∃ f, (runPipe startSt g).1.file = some f ∧ f.aiInsight = none
          ∧ f.status ≠ .completed) := by
  rcases runPipe_shapes startSt g freshFile rfl with ⟨h1, -⟩ | ⟨h1, -⟩ | ⟨h1, -⟩ | ⟨h1, -⟩
    | ⟨h1, -⟩ | ⟨h1, -⟩ | ⟨h1, -⟩ <;> rw [h1]
  · exact Or.inr (Or.inl ⟨by decide,
      { isProcessed := false, status := .pending, aiInsight := none },
      by decide, by decide, by decide⟩)
  · exact Or.inr (Or.inl ⟨by decide,
      { isProcessed := false, status := .failed, aiInsight := none },
      by decide, by decide, by decide⟩)
  · exact Or.inr (Or.inl ⟨by decide,
      { isProcessed := false, status := .processing, aiInsight := none },
      by decide, by decide, by decide⟩)
  · exact Or.inr (Or.inl ⟨by decide,
      { isProcessed := false, status := .failed, aiInsight := none },
      by decide, by decide, by decide⟩)
  · exact Or.inr (Or.inr ⟨by decide, by decide,
      { isProcessed := false, status := .processing, aiInsight := none },
      by decide, by decide, by decide⟩)
  · exact Or.inr (Or.inr ⟨by decide, by decide,
      { isProcessed := false, status := .failed, aiInsight := none },
      by decide, by decide, by decide⟩)
  · exact Or.inl ⟨{ isProcessed := true, status := .completed, aiInsight := some 0 }, 0,
      by decide, by decide, by decide, by decide, by decide⟩

set_option maxRecDepth 1000000 in
/-- C6, counterexample: the Insight Builder copies `confidence` through
unclamped — a payload with confidence 150 yields a document with confidence
150 (out of [0,100]), which mongoose validation then rejects, so the
pipeline ends `failed` with nothing persisted; no clamping happens
anywhere. -/
theorem buildInsight_noClamp_cex :
    (buildInsight payload150 "meta" 0).confidence = Json.num 150
    ∧ ¬ ((150 : Int) ≤ 100)
    ∧ validInsight (buildInsight payload150 "meta" 0) = false
    ∧ (exec s0 [.upload true pipeP150]).1.insights = []
    ∧ statusOf (exec s0 [.upload true pipeP150]).1 = some .failed := by
  have hparse : parseGeminiResponse (Json.render payload150) = payload150 :=
    parseGemini_goodBlock _ _ payload150 (braceMatch_obj _) (jsonParse_render payload150)
  have hv0 : validInsight (buildInsight payload150 "meta" 0) = false := by decide
  have hfin : (exec s0 [.upload true pipeP150]).1
      = { file := some { isProcessed := false, status := .failed, aiInsight := none },
          insights := [], nextId := 0 } := by
    simp [exec, stepEv, s0, runPipe, pipeP150, pipeOk, analyzeMedicalReport, hparse, hv0,
      failTail, setStatus, saveInsight, freshFile]
  exact ⟨by decide, by decide, by decide, by rw [hfin], by rw [hfin]; rfl⟩

/-- C6 (amended): the Insight Builder defaults every absent optional field —
empty findings and risk-factor lists, empty bilingual recommendation and
doctor-question lists, `followUpTimeframe = "1-month"`,
`followUpRequired = false`, and `confidence = 60` (via `|| 60`); no code
clamps confidence, but a persisted (validation-passing) document always has
confidence in [0,100] because `save()` rejects anything else. -/
theorem buildInsight_defaults (meta : String) (pt : Nat) (a : Json) :
    (buildInsight (Json.obj []) meta pt).keyFindings = Json.arr []
    ∧ (buildInsight (Json.obj []) meta pt).riskFactors = Json.arr []
    ∧ (buildInsight (Json.obj []) meta pt).recommendations
        = Json.obj [("english", Json.arr []), ("urdu", Json.arr [])]
    ∧ (buildInsight (Json.obj []) meta pt).doctorQuestions
        = Json.obj [("english", Json.arr []), ("urdu", Json.arr [])]
    ∧ (buildInsight (Json.obj []) meta pt).followUpTimeframe = Json.str "1-month"
    ∧ (buildInsight (Json.obj []) meta pt).followUpRequired = Json.bool false
    ∧ (buildInsight (Json.obj []) meta pt).confidence = Json.num 60
    ∧ (validInsight (buildInsight a meta pt) = true →
        ∃ n : Int, (buildInsight a meta pt).confidence = Json.num n ∧ 0 ≤ n ∧ n ≤ 100) := by
  refine ⟨rfl, rfl, rfl, rfl, rfl, rfl, rfl, ?_⟩
  intro hv
  simp only [validInsight, Bool.and_eq_true] at hv
  obtain ⟨-, hconf⟩ := hv
  cases hc : (buildInsight a meta pt).confidence with
  | num n =>
    rw [hc] at hconf
    have hn := of_decide_eq_true hconf
    exact ⟨n, rfl, hn.1, hn.2⟩
  | null => rw [hc] at hconf; cases hconf
  | bool b => rw [hc] at hconf; cases hconf
  | str s => rw [hc] at hconf; cases hconf
  | arr xs => rw [hc] at hconf; cases hconf
  | obj fs => rw [hc] at hconf; cases hconf

set_option maxRecDepth 100000 in
theorem buildInsight_defaults_witness :
    validInsight (buildInsight (parseGeminiResponse "hello") "meta" 0) = true
    ∧ ∃ n : Int, (buildInsight (parseGeminiResponse "hello") "meta" 0).confidence = Json.num n
        ∧ 0 ≤ n ∧ n ≤ 100 := by
  have h : validInsight (buildInsight (parseGeminiResponse "hello") "meta" 0) = true := by
    decide
  exact ⟨h, (buildInsight_defaults "meta" 0 (parseGeminiResponse "hello")).2.2.2.2.2.2.2 h⟩

end HelpMate
